import Mathlib

/-!
Verification of the proof-manipulation maneuvers of `propositions/deduction.py`
(Hilbert-style propositional deduction: `prove_corollary`, `combine_proofs`,
`remove_assumption`, `prove_from_opposites`, `prove_by_way_of_contradiction`).

The collaborators (`Formula`, `InferenceRule`, `Proof`, and the fixed schema
catalogue) live outside the provided sources, so they are modelled from the
specification (sections 3 and 6 of the design document); the five maneuvers
themselves are translated line by line from `deduction.py`.
-/

/-- Modelled from the spec: a propositional formula is an immutable tree whose
leaves are variables or the truth constants and whose internal nodes carry an
operator symbol with one or two children.  Structural equality. -/
inductive Formula where
  | var (v : String)
  | const (b : Bool)
  | un (op : String) (f : Formula)
  | bin (op : String) (f g : Formula)
deriving DecidableEq

instance : Inhabited Formula := ⟨Formula.const false⟩

/-- Modelled from the spec: the root symbol of a formula (variable name,
constant symbol, or operator symbol), as used by
`proof.statement.assumptions[-1].root` in the source. -/
def Formula.root : Formula → String
  | .var v => v
  | .const b => if b then "T" else "F"
  | .un op _ => op
  | .bin op _ _ => op

/-- Modelled from the spec: the first operand of a non-leaf formula (the
source accesses `.first` of a formula whose root is the unary operator; on
leaves the attribute does not exist in the collaborator, and that case is
unreachable behind the root check, so we return the formula itself). -/
def Formula.first : Formula → Formula
  | .un _ f => f
  | .bin _ f _ => f
  | f => f

/-- A specialization map: a finite assignment of schema variable names to
concrete formulas. -/
abbrev SMap := List (String × Formula)

/-- Lookup in a specialization map. -/
def sm_get : SMap → String → Option Formula
  | [], _ => none
  | (k, f) :: rest, v => if v = k then some f else sm_get rest v

/-- Modelled from the spec: substituting the formulas of a specialization map
for the schema variables of a formula (unmapped variables stay themselves,
constants are unchanged). -/
def Formula.substitute_variables (m : SMap) : Formula → Formula
  | .var v =>
      match sm_get m v with
      | some f => f
      | none => .var v
  | .const b => .const b
  | .un op f => .un op (Formula.substitute_variables m f)
  | .bin op f g =>
      .bin op (Formula.substitute_variables m f) (Formula.substitute_variables m g)

/-- Modelled from the spec: structural matching of a template formula against
a concrete formula, threading an accumulator of bindings; fails on a conflict
with an earlier binding or on a shape mismatch. -/
def formula_match (acc : SMap) : Formula → Formula → Option SMap
  | .var v, t =>
      match sm_get acc v with
      | some u => if u = t then some acc else none
      | none => some ((v, t) :: acc)
  | .const b, .const c => if b = c then some acc else none
  | .un op f, .un op2 g =>
      if op = op2 then formula_match acc f g else none
  | .bin op f1 f2, .bin op2 g1 g2 =>
      if op = op2 then
        match formula_match acc f1 g1 with
        | some acc2 => formula_match acc2 f2 g2
        | none => none
      else none
  | _, _ => none

/-- Matching a list of (template, concrete) formula pairs, threading the
accumulated bindings. -/
def match_pairs (acc : SMap) : List (Formula × Formula) → Option SMap
  | [] => some acc
  | (t, s) :: rest =>
      match formula_match acc t s with
      | some acc2 => match_pairs acc2 rest
      | none => none

/-- Modelled from the spec: an inference rule is an ordered list of assumption
formulas (the schema) together with one conclusion formula. -/
structure InferenceRule where
  assumptions : List Formula
  conclusion : Formula
deriving DecidableEq

/-- Modelled from the spec: the specialization map turning the template rule
`general` into the concrete rule `special`, when one exists (assumption lists
must have equal length and all formulas must match consistently). -/
def InferenceRule.specialization_map (general special : InferenceRule) : Option SMap :=
  if general.assumptions.length = special.assumptions.length then
    match_pairs []
      ((general.conclusion, special.conclusion) :: general.assumptions.zip special.assumptions)
  else none

/-- Modelled from the spec: `special.is_specialization_of general` holds when a
specialization map from `general` to `special` exists. -/
def InferenceRule.is_specialization_of (special general : InferenceRule) : Bool :=
  (general.specialization_map special).isSome

/-- Modelled from the spec: applying a specialization map throughout a rule. -/
def InferenceRule.specialize (r : InferenceRule) (m : SMap) : InferenceRule :=
  ⟨r.assumptions.map (Formula.substitute_variables m), Formula.substitute_variables m r.conclusion⟩

/-- Modelled from the spec: a proof line holds a formula and a justification:
either "assumption" (`rule = none`) or an application of a rule with a list of
references (`assumptions`) to earlier lines, one per assumption slot. -/
structure Line where
  formula : Formula
  rule : Option InferenceRule
  assumptions : List Nat
deriving DecidableEq

instance : Inhabited Line := ⟨⟨default, none, []⟩⟩

/-- Whether this line is justified as an assumption of the statement. -/
def Line.is_assumption (l : Line) : Bool := l.rule.isNone

/-- Modelled from the spec: a proof is a statement (assumption list plus goal,
itself an inference rule), a set of permitted rules, and an ordered line list. -/
structure Proof where
  statement : InferenceRule
  rules : Finset InferenceRule
  lines : List Line
deriving DecidableEq

deriving instance DecidableEq for Except

/-- Modelled from the spec: local well-formedness of line `i` of a line list,
given the statement's assumption list and the permitted rule set: an
assumption line's formula must appear in the assumption list; a rule line's
rule must be permitted, its references must point strictly earlier, and the
rule formed by the referenced formulas and the line's formula must be a
specialization of the line's rule. -/
def line_ok (asms : List Formula) (rules : Finset InferenceRule)
    (lines : List Line) (i : Nat) : Bool :=
  match (lines.getD i default).rule with
  | none => decide ((lines.getD i default).formula ∈ asms)
  | some r =>
      decide (r ∈ rules) &&
      ((lines.getD i default).assumptions.all fun j => decide (j < i)) &&
      (InferenceRule.mk
        ((lines.getD i default).assumptions.map fun j => (lines.getD j default).formula)
        (lines.getD i default).formula).is_specialization_of r

/-- Modelled from the spec: a proof is valid iff its line list is non-empty,
every line is locally well-formed, and the last line's formula equals the
statement's goal. -/
def Proof.is_valid (p : Proof) : Bool :=
  decide (p.lines ≠ []) &&
  decide ((p.lines.getD (p.lines.length - 1) default).formula = p.statement.conclusion) &&
  ((List.range p.lines.length).all fun i => line_ok p.statement.assumptions p.rules p.lines i)

/-- Modelled from the spec: Modus Ponens — from `A` and `(A->B)` derive `B`. -/
def MP : InferenceRule :=
  ⟨[Formula.var "p", Formula.bin "->" (Formula.var "p") (Formula.var "q")], Formula.var "q"⟩

/-- Modelled from the spec: the identity schema I0, pattern `(p->p)`. -/
def I0 : InferenceRule :=
  ⟨[], Formula.bin "->" (Formula.var "p") (Formula.var "p")⟩

/-- Modelled from the spec: the weakening schema I1, pattern `(q->(p->q))`. -/
def I1 : InferenceRule :=
  ⟨[], Formula.bin "->" (Formula.var "q")
        (Formula.bin "->" (Formula.var "p") (Formula.var "q"))⟩

/-- Modelled from the spec: the distribution schema D, pattern
`((p->(q->r)) -> ((p->q)->(p->r)))`. -/
def D : InferenceRule :=
  ⟨[], Formula.bin "->"
        (Formula.bin "->" (Formula.var "p")
          (Formula.bin "->" (Formula.var "q") (Formula.var "r")))
        (Formula.bin "->"
          (Formula.bin "->" (Formula.var "p") (Formula.var "q"))
          (Formula.bin "->" (Formula.var "p") (Formula.var "r")))⟩

/-- Modelled from the spec: the ex-falso schema I2, pattern `(~p->(p->q))`. -/
def I2 : InferenceRule :=
  ⟨[], Formula.bin "->" (Formula.un "~" (Formula.var "p"))
        (Formula.bin "->" (Formula.var "p") (Formula.var "q"))⟩

/-- Modelled from the spec: the double-negation-elimination schema N, pattern
`((~q->~p)->(p->q))`. -/
def N : InferenceRule :=
  ⟨[], Formula.bin "->"
        (Formula.bin "->" (Formula.un "~" (Formula.var "q"))
          (Formula.un "~" (Formula.var "p")))
        (Formula.bin "->" (Formula.var "p") (Formula.var "q"))⟩

/-- The fixed contradictory formula `~(p->p)` required by
`prove_by_way_of_contradiction`. -/
def contradiction_formula : Formula :=
  Formula.un "~" (Formula.bin "->" (Formula.var "p") (Formula.var "p"))

/-- Shifting one proof line's internal references by `n` when splicing it
after `n` other lines; assumption-justified lines are kept unchanged
(`deduction.py`, the loops at lines 136-141 and 304-309). -/
def shift_line (n : Nat) (line : Line) : Line :=
  if line.is_assumption then line
  else ⟨line.formula, line.rule, line.assumptions.map (· + n)⟩

/-- `prove_corollary` from `deduction.py` (lines 13-82).  The two leading
asserts become the two error branches; the body builds the specialization of
`conditional`, copies the antecedent proof's lines, appends the specialized
line and one Modus Ponens line.  Note that the appended specialized line
carries `specialized_conditional` itself as its rule. -/
def prove_corollary (antecedent_proof : Proof) (consequent : Formula)
    (conditional : InferenceRule) : Except String Proof :=
  if antecedent_proof.is_valid then
    if (InferenceRule.mk []
          (Formula.bin "->" antecedent_proof.statement.conclusion consequent)
        ).is_specialization_of conditional then
      let implication_rule : InferenceRule :=
        ⟨[], Formula.bin "->" antecedent_proof.statement.conclusion consequent⟩
      let specialization_map :=
        (conditional.specialization_map implication_rule).getD []
      let specialized_conditional := conditional.specialize specialization_map
      let antecedent_line := antecedent_proof.lines.length - 1
      let implication_line := antecedent_line + 1
      let lines := antecedent_proof.lines ++
        [Line.mk specialized_conditional.conclusion (some specialized_conditional) [],
         Line.mk consequent (some MP) [antecedent_line, implication_line]]
      let rules := antecedent_proof.rules ∪ {MP, conditional}
      let new_statement : InferenceRule :=
        ⟨antecedent_proof.statement.assumptions, consequent⟩
      Except.ok ⟨new_statement, rules, lines⟩
    else Except.error "conditional is not a specialization of the required pattern"
  else Except.error "antecedent proof is not valid"

/-- `combine_proofs` from `deduction.py` (lines 84-170): guards mirror the five
asserts; the body copies proof 1's lines, appends proof 2's lines with shifted
references, appends the specialized double-conditional line (again carrying the
specialized rule itself as its rule) and two Modus Ponens lines. -/
def combine_proofs (antecedent1_proof antecedent2_proof : Proof)
    (consequent : Formula) (double_conditional : InferenceRule) : Except String Proof :=
  if antecedent1_proof.is_valid then
    if antecedent2_proof.is_valid then
      if antecedent1_proof.statement.assumptions = antecedent2_proof.statement.assumptions then
        if antecedent1_proof.rules = antecedent2_proof.rules then
          if (InferenceRule.mk []
                (Formula.bin "->" antecedent1_proof.statement.conclusion
                  (Formula.bin "->" antecedent2_proof.statement.conclusion consequent))
              ).is_specialization_of double_conditional then
            let double_implication_rule : InferenceRule :=
              ⟨[], Formula.bin "->" antecedent1_proof.statement.conclusion
                    (Formula.bin "->" antecedent2_proof.statement.conclusion consequent)⟩
            let specialization_map :=
              (double_conditional.specialization_map double_implication_rule).getD []
            let specialized_double_conditional :=
              double_conditional.specialize specialization_map
            let total_lines_from_proof1 := antecedent1_proof.lines.length
            let total_lines_from_proof2 := antecedent2_proof.lines.length
            let lines := antecedent1_proof.lines ++
              antecedent2_proof.lines.map (shift_line total_lines_from_proof1) ++
              [Line.mk specialized_double_conditional.conclusion
                 (some specialized_double_conditional) [],
               Line.mk (Formula.bin "->" antecedent2_proof.statement.conclusion consequent)
                 (some MP)
                 [total_lines_from_proof1 - 1,
                  total_lines_from_proof1 + total_lines_from_proof2],
               Line.mk consequent (some MP)
                 [total_lines_from_proof1 + total_lines_from_proof2 - 1,
                  total_lines_from_proof1 + total_lines_from_proof2 + 1]]
            let rules := antecedent1_proof.rules ∪ {MP, double_conditional}
            let new_statement : InferenceRule :=
              ⟨antecedent1_proof.statement.assumptions, consequent⟩
            Except.ok ⟨new_statement, rules, lines⟩
          else Except.error "double conditional is not a specialization of the required pattern"
        else Except.error "proofs do not share rules"
      else Except.error "proofs do not share assumptions"
    else Except.error "second proof is not valid"
  else Except.error "first proof is not valid"

/-- The lines `remove_assumption` appends to `new_lines` for one original line
(`deduction.py`, lines 202-251): one I0 line for the removed assumption, one
I1 line for any other assumption, one D line for a Modus Ponens line, and a
re-justified line plus I1 plus Modus Ponens for any other rule line (the Modus
Ponens references are computed from the current length of `new_lines`). -/
def ra_step (assumption : Formula) (origLines : List Line) (acc_len : Nat)
    (line : Line) : List Line :=
  match line.rule with
  | none =>
      if line.formula = assumption then
        [⟨Formula.bin "->" assumption assumption, some I0, []⟩]
      else
        [⟨Formula.bin "->" line.formula (Formula.bin "->" assumption line.formula),
          some I1, []⟩]
  | some rule_used =>
      if rule_used = MP then
        let phi_line := line.assumptions.getD 0 0
        let implication_line := line.assumptions.getD 1 0
        let d_formula := Formula.bin "->"
          (Formula.bin "->" assumption
            (Formula.bin "->" (origLines.getD phi_line default).formula
              (origLines.getD implication_line default).formula))
          (Formula.bin "->"
            (Formula.bin "->" assumption (origLines.getD phi_line default).formula)
            (Formula.bin "->" assumption line.formula))
        [⟨d_formula, some D, []⟩]
      else
        [⟨line.formula, some rule_used, []⟩,
         ⟨Formula.bin "->" line.formula (Formula.bin "->" assumption line.formula),
           some I1, []⟩,
         ⟨Formula.bin "->" assumption line.formula, some MP, [acc_len, acc_len + 1]⟩]

/-- `remove_assumption` from `deduction.py` (lines 172-259): guards mirror the
asserts; the loop builds `new_lines` via `ra_step`, but the function then
returns `Proof(new_statement, rules, [])` — the computed `new_lines` is
discarded and the returned proof has an empty line list, exactly as in the
source. -/
def remove_assumption (proof : Proof) : Except String Proof :=
  if proof.is_valid then
    if 0 < proof.statement.assumptions.length then
      if decide (∀ r ∈ proof.rules, r = MP ∨ r.assumptions.length = 0) then
        let assumption := proof.statement.assumptions.getLastD default
        let conclusion := proof.statement.conclusion
        let new_lines := proof.lines.foldl
          (fun acc line => acc ++ ra_step assumption proof.lines acc.length line) []
        let new_statement : InferenceRule :=
          ⟨proof.statement.assumptions.dropLast,
           Formula.bin "->" assumption conclusion⟩
        let rules := proof.rules ∪ {MP, I0, I1, D}
        Except.ok ⟨new_statement, rules, []⟩
      else Except.error "proof uses a rule with assumptions other than MP"
    else Except.error "proof has no assumptions"
  else Except.error "proof is not valid"

/-- `prove_from_opposites` from `deduction.py` (lines 261-334): guards mirror
the five asserts; the body copies the affirmation proof's lines, appends the
negation proof's lines with references shifted by `offset_affirmation + 1`,
appends the specialized I2 line (justified by the schema I2 itself), and two
Modus Ponens lines. -/
def prove_from_opposites (proof_of_affirmation proof_of_negation : Proof)
    (conclusion : Formula) : Except String Proof :=
  if proof_of_affirmation.is_valid then
    if proof_of_negation.is_valid then
      if proof_of_affirmation.statement.assumptions
          = proof_of_negation.statement.assumptions then
        if Formula.un "~" proof_of_affirmation.statement.conclusion
            = proof_of_negation.statement.conclusion then
          if proof_of_affirmation.rules = proof_of_negation.rules then
            let affirmation := proof_of_affirmation.statement.conclusion
            let i2_formula := Formula.bin "->" (Formula.un "~" affirmation)
              (Formula.bin "->" affirmation conclusion)
            let offset_affirmation := proof_of_affirmation.lines.length - 1
            let lines1 := proof_of_affirmation.lines ++
              proof_of_negation.lines.map (shift_line (offset_affirmation + 1))
            let offset_negation_end := lines1.length - 1
            let lines2 := lines1 ++ [Line.mk i2_formula (some I2) []]
            let i2_line := lines2.length - 1
            let lines3 := lines2 ++
              [Line.mk (Formula.bin "->" affirmation conclusion) (some MP)
                 [offset_negation_end, i2_line]]
            let lines4 := lines3 ++
              [Line.mk conclusion (some MP) [offset_affirmation, lines3.length - 1]]
            let rules := proof_of_affirmation.rules ∪ {MP, I2}
            let new_statement : InferenceRule :=
              ⟨proof_of_affirmation.statement.assumptions, conclusion⟩
            Except.ok ⟨new_statement, rules, lines4⟩
          else Except.error "proofs do not share rules"
        else Except.error "negation proof does not prove the negation"
      else Except.error "proofs do not share assumptions"
    else Except.error "negation proof is not valid"
  else Except.error "affirmation proof is not valid"

/-- `prove_by_way_of_contradiction` from `deduction.py` (lines 336-371):
guards mirror the five asserts; the body computes `negation`, `formula` and
`new_statement` and then executes `return Proof(new_statement, rules, [])`
where the local name `rules` was never assigned — in Python this raises
`NameError`, so the call produces no proof; we embed that crash as the final
error value. -/
def prove_by_way_of_contradiction (proof : Proof) : Except String Proof :=
  if proof.is_valid then
    if proof.statement.conclusion = contradiction_formula then
      if 0 < proof.statement.assumptions.length then
        if (proof.statement.assumptions.getLastD default).root = "~" then
          if decide (∀ r ∈ proof.rules, r = MP ∨ r.assumptions.length = 0) then
            let negation := proof.statement.assumptions.getLastD default
            let formula := negation.first
            let new_statement : InferenceRule :=
              ⟨proof.statement.assumptions.dropLast, formula⟩
            Except.error "NameError: name rules is not defined"
          else Except.error "proof uses a rule with assumptions other than MP"
        else Except.error "last assumption is not a negation"
      else Except.error "proof has no assumptions"
    else Except.error "proof does not prove the contradiction"
  else Except.error "proof is not valid"

/-- Modelled from the spec: the two-step composition that
`prove_by_way_of_contradiction` is documented to perform — first
`remove_assumption`, then `prove_corollary` of the result with consequent
`formula` and the schema N. -/
def prove_by_way_of_contradiction_spec (proof : Proof) : Except String Proof :=
  (remove_assumption proof).bind fun removed =>
    prove_corollary removed (proof.statement.assumptions.getLastD default).first N

/-- One specialization map extends another: every binding of the first is a
binding of the second. -/
def sm_extends (m1 m2 : SMap) : Prop :=
  ∀ k f, sm_get m1 k = some f → sm_get m2 k = some f

/- Concrete formulas and proofs used as test inputs below. -/

/-- The variable formula `p`. -/
def fp : Formula := Formula.var "p"

/-- The variable formula `q`. -/
def fq : Formula := Formula.var "q"

/-- The variable formula `r`. -/
def fr : Formula := Formula.var "r"

/-- The concrete scenario of the spec for `remove_assumption`: assumptions
`["q", "p"]`, two lines each the assumption `p`, conclusion `p`. -/
def c1_proof : Proof :=
  ⟨⟨[fq, fp], fp⟩, ∅, [⟨fp, none, []⟩, ⟨fp, none, []⟩]⟩

/-- A one-line valid proof of `~(p->p)` from the single assumption `~(p->p)`,
satisfying every precondition of `prove_by_way_of_contradiction`. -/
def c2_proof : Proof :=
  ⟨⟨[contradiction_formula], contradiction_formula⟩, ∅,
   [⟨contradiction_formula, none, []⟩]⟩

/-- A one-line valid proof of `q` from the assumption `q`. -/
def c4_proof : Proof := ⟨⟨[fq], fq⟩, ∅, [⟨fq, none, []⟩]⟩

/-- The assumptionless schema `(p->p)`, of which `(q->q)` is a specialization
under the non-identity map sending `p` to `q`. -/
def c4_cond : InferenceRule := ⟨[], Formula.bin "->" fp fp⟩

/-- A one-line valid proof of `p` from the shared assumptions `[p, q]`. -/
def c5_p1 : Proof := ⟨⟨[fp, fq], fp⟩, ∅, [⟨fp, none, []⟩]⟩

/-- A one-line valid proof of `q` from the shared assumptions `[p, q]`. -/
def c5_p2 : Proof := ⟨⟨[fp, fq], fq⟩, ∅, [⟨fq, none, []⟩]⟩

/-- The assumptionless schema `(x->(y->z))`, of which `(p->(q->r))` is a
specialization under a non-identity map. -/
def c5_dc : InferenceRule :=
  ⟨[], Formula.bin "->" (Formula.var "x")
        (Formula.bin "->" (Formula.var "y") (Formula.var "z"))⟩

/-- A one-line valid proof of `p` from the shared assumptions `[p, ~p]`. -/
def c7_pa : Proof :=
  ⟨⟨[fp, Formula.un "~" fp], fp⟩, ∅, [⟨fp, none, []⟩]⟩

/-- A one-line valid proof of `~p` from the shared assumptions `[p, ~p]`. -/
def c7_pn : Proof :=
  ⟨⟨[fp, Formula.un "~" fp], Formula.un "~" fp⟩, ∅, [⟨Formula.un "~" fp, none, []⟩]⟩

/-- A one-line valid proof of `p` from the assumption `p`. -/
def c8_ap : Proof := ⟨⟨[fp], fp⟩, ∅, [⟨fp, none, []⟩]⟩

/-- The concrete assumptionless rule `(p->q)`, of which `(p->q)` itself is the
required specialization. -/
def c10_cond : InferenceRule := ⟨[], Formula.bin "->" fp fq⟩

/- A small heap model of the Python lists manipulated by the maneuvers, used
to state that the maneuvers never mutate their input proofs: every proof's
line sequence lives at an index of the heap, a maneuver allocates a fresh
list for its own lines and appends only to that list. -/

/-- The heap: at each index, the contents of one Python list of proof lines. -/
abbrev Heap := List (List Line)

/-- Reading the list stored at index `i` of the heap. -/
def readL (h : Heap) (i : Nat) : List Line := h.getD i []

/-- Allocating a fresh empty list (`lines = []` in the source), returning its
index together with the extended heap. -/
def allocL (h : Heap) : Nat × Heap := (h.length, h ++ [[]])

/-- `list.append(x)` at heap index `i`. -/
def pushL (h : Heap) (i : Nat) (x : Line) : Heap := h.set i (h.getD i [] ++ [x])

/-- Appending several elements in order at heap index `i`. -/
def pushAllL (h : Heap) (i : Nat) : List Line → Heap
  | [] => h
  | x :: xs => pushAllL (pushL h i x) i xs

/-- A proof whose line sequence lives on the heap. -/
structure ProofH where
  statement : InferenceRule
  rules : Finset InferenceRule
  linesRef : Nat

/-- The pure view of a heap-resident proof. -/
def ProofH.toProof (p : ProofH) (h : Heap) : Proof :=
  ⟨p.statement, p.rules, readL h p.linesRef⟩

/-- Heap-level `prove_corollary`: identical control flow to the pure version,
with the Python list operations made explicit — a fresh list is allocated and
all appends go to that fresh list. -/
def prove_corollaryH (antecedent_proof : ProofH) (consequent : Formula)
    (conditional : InferenceRule) (h : Heap) : Except String ProofH × Heap :=
  let ap := antecedent_proof.toProof h
  if ap.is_valid then
    if (InferenceRule.mk []
          (Formula.bin "->" ap.statement.conclusion consequent)
        ).is_specialization_of conditional then
      let specialization_map := (conditional.specialization_map
        ⟨[], Formula.bin "->" ap.statement.conclusion consequent⟩).getD []
      let specialized_conditional := conditional.specialize specialization_map
      let antecedent_line := (readL h antecedent_proof.linesRef).length - 1
      let implication_line := antecedent_line + 1
      let alloc1 := allocL h
      let lid := alloc1.1
      let h1 := alloc1.2
      let h2 := pushAllL h1 lid (readL h1 antecedent_proof.linesRef)
      let h3 := pushL h2 lid
        ⟨specialized_conditional.conclusion, some specialized_conditional, []⟩
      let h4 := pushL h3 lid ⟨consequent, some MP, [antecedent_line, implication_line]⟩
      (Except.ok ⟨⟨ap.statement.assumptions, consequent⟩, ap.rules ∪ {MP, conditional}, lid⟩, h4)
    else (Except.error "conditional is not a specialization of the required pattern", h)
  else (Except.error "antecedent proof is not valid", h)

/-- Heap-level `combine_proofs`. -/
def combine_proofsH (antecedent1_proof antecedent2_proof : ProofH)
    (consequent : Formula) (double_conditional : InferenceRule) (h : Heap) :
    Except String ProofH × Heap :=
  let p1 := antecedent1_proof.toProof h
  let p2 := antecedent2_proof.toProof h
  if p1.is_valid then
    if p2.is_valid then
      if p1.statement.assumptions = p2.statement.assumptions then
        if p1.rules = p2.rules then
          if (InferenceRule.mk []
                (Formula.bin "->" p1.statement.conclusion
                  (Formula.bin "->" p2.statement.conclusion consequent))
              ).is_specialization_of double_conditional then
            let specialization_map := (double_conditional.specialization_map
              ⟨[], Formula.bin "->" p1.statement.conclusion
                    (Formula.bin "->" p2.statement.conclusion consequent)⟩).getD []
            let specialized_double_conditional :=
              double_conditional.specialize specialization_map
            let total1 := (readL h antecedent1_proof.linesRef).length
            let total2 := (readL h antecedent2_proof.linesRef).length
            let alloc1 := allocL h
            let lid := alloc1.1
            let h1 := alloc1.2
            let h2 := pushAllL h1 lid (readL h1 antecedent1_proof.linesRef)
            let h3 := pushAllL h2 lid
              ((readL h2 antecedent2_proof.linesRef).map (shift_line total1))
            let h4 := pushL h3 lid
              ⟨specialized_double_conditional.conclusion,
               some specialized_double_conditional, []⟩
            let h5 := pushL h4 lid
              ⟨Formula.bin "->" p2.statement.conclusion consequent, some MP,
               [total1 - 1, total1 + total2]⟩
            let h6 := pushL h5 lid
              ⟨consequent, some MP, [total1 + total2 - 1, total1 + total2 + 1]⟩
            (Except.ok ⟨⟨p1.statement.assumptions, consequent⟩,
               p1.rules ∪ {MP, double_conditional}, lid⟩, h6)
          else (Except.error "double conditional is not a specialization of the required pattern", h)
        else (Except.error "proofs do not share rules", h)
      else (Except.error "proofs do not share assumptions", h)
    else (Except.error "second proof is not valid", h)
  else (Except.error "first proof is not valid", h)

/-- Heap-level `remove_assumption`: the loop appends to the freshly allocated
`new_lines` list, reading the current length of that list for the Modus Ponens
references; the returned proof then carries yet another freshly allocated
empty list, mirroring the literal `[]` in the source's return. -/
def remove_assumptionH (proof : ProofH) (h : Heap) : Except String ProofH × Heap :=
  let p := proof.toProof h
  if p.is_valid then
    if 0 < p.statement.assumptions.length then
      if decide (∀ r ∈ p.rules, r = MP ∨ r.assumptions.length = 0) then
        let assumption := p.statement.assumptions.getLastD default
        let alloc1 := allocL h
        let lid := alloc1.1
        let h1 := alloc1.2
        let h2 := (readL h1 proof.linesRef).foldl
          (fun hh line =>
            pushAllL hh lid
              (ra_step assumption (readL hh proof.linesRef) (readL hh lid).length line))
          h1
        let alloc2 := allocL h2
        let lid2 := alloc2.1
        let h3 := alloc2.2
        (Except.ok ⟨⟨p.statement.assumptions.dropLast,
            Formula.bin "->" assumption p.statement.conclusion⟩,
          p.rules ∪ {MP, I0, I1, D}, lid2⟩, h3)
      else (Except.error "proof uses a rule with assumptions other than MP", h)
    else (Except.error "proof has no assumptions", h)
  else (Except.error "proof is not valid", h)

/-- Heap-level `prove_from_opposites`. -/
def prove_from_oppositesH (proof_of_affirmation proof_of_negation : ProofH)
    (conclusion : Formula) (h : Heap) : Except String ProofH × Heap :=
  let pa := proof_of_affirmation.toProof h
  let pn := proof_of_negation.toProof h
  if pa.is_valid then
    if pn.is_valid then
      if pa.statement.assumptions = pn.statement.assumptions then
        if Formula.un "~" pa.statement.conclusion = pn.statement.conclusion then
          if pa.rules = pn.rules then
            let affirmation := pa.statement.conclusion
            let i2_formula := Formula.bin "->" (Formula.un "~" affirmation)
              (Formula.bin "->" affirmation conclusion)
            let alloc1 := allocL h
            let lid := alloc1.1
            let h1 := alloc1.2
            let h2 := pushAllL h1 lid (readL h1 proof_of_affirmation.linesRef)
            let offset_affirmation := (readL h2 lid).length - 1
            let h3 := pushAllL h2 lid
              ((readL h2 proof_of_negation.linesRef).map
                (shift_line (offset_affirmation + 1)))
            let offset_negation_end := (readL h3 lid).length - 1
            let h4 := pushL h3 lid ⟨i2_formula, some I2, []⟩
            let i2_line := (readL h4 lid).length - 1
            let h5 := pushL h4 lid
              ⟨Formula.bin "->" affirmation conclusion, some MP,
               [offset_negation_end, i2_line]⟩
            let h6 := pushL h5 lid
              ⟨conclusion, some MP, [offset_affirmation, (readL h5 lid).length - 1]⟩
            (Except.ok ⟨⟨pa.statement.assumptions, conclusion⟩,
               pa.rules ∪ {MP, I2}, lid⟩, h6)
          else (Except.error "proofs do not share rules", h)
        else (Except.error "negation proof does not prove the negation", h)
      else (Except.error "proofs do not share assumptions", h)
    else (Except.error "negation proof is not valid", h)
  else (Except.error "affirmation proof is not valid", h)

/-- Heap-level `prove_by_way_of_contradiction`: all guards read the heap, and
the body crashes (Python `NameError`) before building any list, leaving the
heap untouched. -/
def prove_by_way_of_contradictionH (proof : ProofH) (h : Heap) :
    Except String ProofH × Heap :=
  let p := proof.toProof h
  if p.is_valid then
    if p.statement.conclusion = contradiction_formula then
      if 0 < p.statement.assumptions.length then
        if (p.statement.assumptions.getLastD default).root = "~" then
          if decide (∀ r ∈ p.rules, r = MP ∨ r.assumptions.length = 0) then
            (Except.error "NameError: name rules is not defined", h)
          else (Except.error "proof uses a rule with assumptions other than MP", h)
        else (Except.error "last assumption is not a negation", h)
      else (Except.error "proof has no assumptions", h)
    else (Except.error "proof does not prove the contradiction", h)
  else (Except.error "proof is not valid", h)

/-- A concrete heap holding one one-line list at index 0. -/
def c9_heap : Heap := [[Line.mk fp none []]]

/-- A concrete heap-resident proof whose line sequence is heap index 0. -/
def c9_ph : ProofH := ⟨⟨[fp], fp⟩, ∅, 0⟩

/- List indexing helpers. -/

/-- `getD` on an append, left part. -/
theorem getD_append_of_lt {α : Type} (d : α) :
    ∀ (L M : List α) (i : Nat), i < L.length → (L ++ M).getD i d = L.getD i d
  | [], _, i, h => absurd h (by simp)
  | a :: L, M, 0, _ => rfl
  | a :: L, M, i + 1, h => by
      simpa using getD_append_of_lt d L M i (by simpa using h)

/-- `getD` on an append, right part. -/
theorem getD_append_of_ge {α : Type} (d : α) :
    ∀ (L M : List α) (i : Nat), L.length ≤ i → (L ++ M).getD i d = M.getD (i - L.length) d
  | [], _, i, _ => by simp
  | a :: L, M, 0, h => absurd h (by simp)
  | a :: L, M, i + 1, h => by
      simpa using getD_append_of_ge d L M i (by simpa using h)

/-- `getD` on a mapped list. -/
theorem getD_map_of_lt {α β : Type} (d : β) (d2 : α) (f : α → β) :
    ∀ (L : List α) (i : Nat), i < L.length → (L.map f).getD i d = f (L.getD i d2)
  | [], i, h => absurd h (by simp)
  | a :: L, 0, _ => rfl
  | a :: L, i + 1, h => by
      simpa using getD_map_of_lt d d2 f L i (by simpa using h)

/-- `getD` after `set` at a different index. -/
theorem getD_set_of_ne {α : Type} (d : α) :
    ∀ (l : List α) (i j : Nat) (a : α), i ≠ j → (l.set i a).getD j d = l.getD j d
  | [], _, _, _, _ => rfl
  | x :: l, 0, 0, a, h => absurd rfl h
  | x :: l, 0, j + 1, a, _ => rfl
  | x :: l, i + 1, 0, a, _ => rfl
  | x :: l, i + 1, j + 1, a, h => by
      simpa using getD_set_of_ne d l i j a (by omega)

/- Soundness of specialization matching. -/

/-- Extension is reflexive. -/
theorem sm_extends_refl (m : SMap) : sm_extends m m := fun _ _ h => h

/-- Extension is transitive. -/
theorem sm_extends_trans {m1 m2 m3 : SMap} (h1 : sm_extends m1 m2)
    (h2 : sm_extends m2 m3) : sm_extends m1 m3 :=
  fun k f h => h2 k f (h1 k f h)

/-- Successful matching extends the accumulator and yields, for every further
extension of the result, a substitution sending the template to the target. -/
theorem formula_match_sound :
    ∀ (t s : Formula) (acc m : SMap), formula_match acc t s = some m →
      sm_extends acc m ∧
      ∀ m2, sm_extends m m2 → Formula.substitute_variables m2 t = s := by
  intro t
  induction t with
  | var v =>
    intro s acc m hm
    rw [formula_match] at hm
    cases hg : sm_get acc v with
    | some u =>
      rw [hg] at hm
      by_cases hu : u = s
      · subst hu
        simp at hm
        subst hm
        refine ⟨sm_extends_refl _, ?_⟩
        intro m2 hext
        have := hext v u hg
        simp [Formula.substitute_variables, this]
      · simp [hu] at hm
    | none =>
      rw [hg] at hm
      simp at hm
      subst hm
      constructor
      · intro k f hk
        by_cases hkv : k = v
        · subst hkv
          rw [hk] at hg
          exact absurd hg (by simp)
        · simpa [sm_get, hkv] using hk
      · intro m2 hext
        have : sm_get m2 v = some s := hext v s (by simp [sm_get])
        simp [Formula.substitute_variables, this]
  | const b =>
    intro s acc m hm
    cases s with
    | const c =>
      rw [formula_match] at hm
      by_cases hbc : b = c
      · subst hbc
        simp at hm
        subst hm
        exact ⟨sm_extends_refl _, fun m2 _ => by simp [Formula.substitute_variables]⟩
      · simp [hbc] at hm
    | var w => exact absurd hm (by simp [formula_match])
    | un op f => exact absurd hm (by simp [formula_match])
    | bin op f g => exact absurd hm (by simp [formula_match])
  | un op f ih =>
    intro s acc m hm
    cases s with
    | un op2 g =>
      rw [formula_match] at hm
      by_cases hop : op = op2
      · subst hop
        rw [if_pos rfl] at hm
        obtain ⟨hext, hsub⟩ := ih g acc m hm
        refine ⟨hext, fun m2 h2 => ?_⟩
        simp [Formula.substitute_variables, hsub m2 h2]
      · simp [hop] at hm
    | var w => exact absurd hm (by simp [formula_match])
    | const c => exact absurd hm (by simp [formula_match])
    | bin op2 g1 g2 => exact absurd hm (by simp [formula_match])
  | bin op f1 f2 ih1 ih2 =>
    intro s acc m hm
    cases s with
    | bin op2 g1 g2 =>
      rw [formula_match] at hm
      by_cases hop : op = op2
      · subst hop
        rw [if_pos rfl] at hm
        cases hfm : formula_match acc f1 g1 with
        | none => rw [hfm] at hm; exact absurd hm (by simp)
        | some acc2 =>
          rw [hfm] at hm
          obtain ⟨hext1, hsub1⟩ := ih1 g1 acc acc2 hfm
          obtain ⟨hext2, hsub2⟩ := ih2 g2 acc2 m hm
          refine ⟨sm_extends_trans hext1 hext2, fun m2 h2 => ?_⟩
          have e1 := hsub1 m2 (sm_extends_trans hext2 h2)
          have e2 := hsub2 m2 h2
          simp [Formula.substitute_variables, e1, e2]
      · simp [hop] at hm
    | var w => exact absurd hm (by simp [formula_match])
    | const c => exact absurd hm (by simp [formula_match])
    | un op2 g => exact absurd hm (by simp [formula_match])

/-- Successful matching of a pair list: every template is sent to its target
by the resulting map. -/
theorem match_pairs_sound :
    ∀ (ps : List (Formula × Formula)) (acc m : SMap), match_pairs acc ps = some m →
      sm_extends acc m ∧
      ∀ p ∈ ps, Formula.substitute_variables m p.1 = p.2 := by
  intro ps
  induction ps with
  | nil =>
    intro acc m hm
    simp [match_pairs] at hm
    subst hm
    exact ⟨sm_extends_refl _, by simp⟩
  | cons hd rest ih =>
    intro acc m hm
    obtain ⟨t, s⟩ := hd
    rw [match_pairs] at hm
    cases hfm : formula_match acc t s with
    | none => rw [hfm] at hm; exact absurd hm (by simp)
    | some acc2 =>
      rw [hfm] at hm
      obtain ⟨hext1, hsub1⟩ := formula_match_sound t s acc acc2 hfm
      obtain ⟨hext2, hall⟩ := ih acc2 m hm
      refine ⟨sm_extends_trans hext1 hext2, ?_⟩
      intro p hp
      rcases List.mem_cons.mp hp with hp1 | hp2
      · subst hp1
        exact hsub1 m hext2
      · exact hall p hp2

/-- A pointwise fact about zipped lists of equal length turns into a map
equation. -/
theorem map_eq_of_zip {α β : Type} (f : α → β) :
    ∀ (l1 : List α) (l2 : List β), l1.length = l2.length →
      (∀ p ∈ l1.zip l2, f p.1 = p.2) → l1.map f = l2
  | [], [], _, _ => rfl
  | [], b :: l2, h, _ => absurd h (by simp)
  | a :: l1, [], h, _ => absurd h (by simp)
  | a :: l1, b :: l2, h, hall => by
      simp only [List.map_cons]
      have hh : f a = b := hall (a, b) (by simp [List.zip_cons_cons])
      rw [hh, map_eq_of_zip f l1 l2 (by simpa using h)
        (fun p hp => hall p (by simp [List.zip_cons_cons, hp]))]

/-- Soundness of `specialization_map`: a returned map really specializes the
template rule to the target rule. -/
theorem specialization_map_sound (general special : InferenceRule) (σ : SMap)
    (h : general.specialization_map special = some σ) :
    general.specialize σ = special := by
  rw [InferenceRule.specialization_map] at h
  by_cases hlen : general.assumptions.length = special.assumptions.length
  · rw [if_pos hlen] at h
    obtain ⟨-, hall⟩ := match_pairs_sound _ [] σ h
    have hconc : Formula.substitute_variables σ general.conclusion = special.conclusion :=
      hall (general.conclusion, special.conclusion) (by simp)
    have hasms : general.assumptions.map (Formula.substitute_variables σ)
        = special.assumptions :=
      map_eq_of_zip _ _ _ hlen (fun p hp => hall p (by simp [hp]))
    rw [InferenceRule.specialize, hconc, hasms]
  · rw [if_neg hlen] at h
    exact absurd h (by simp)

/-- A positive specialization test yields a witness map. -/
theorem is_specialization_of_exists {special general : InferenceRule}
    (h : special.is_specialization_of general = true) :
    ∃ σ, general.specialization_map special = some σ := by
  rw [InferenceRule.is_specialization_of] at h
  exact Option.isSome_iff_exists.mp h

/-- Every rule of the shape `A, (A->B) ⊢ B` is a specialization of MP. -/
theorem mp_rule_spec (X Y : Formula) :
    (InferenceRule.mk [X, Formula.bin "->" X Y] Y).is_specialization_of MP = true := by
  have i1 : formula_match [("p", X), ("q", Y)] (Formula.var "p") X
      = some [("p", X), ("q", Y)] := by
    rw [formula_match, show sm_get [("p", X), ("q", Y)] "p" = some X from rfl]
    simp
  have i2 : formula_match [("p", X), ("q", Y)] (Formula.var "q") Y
      = some [("p", X), ("q", Y)] := by
    rw [formula_match, show sm_get [("p", X), ("q", Y)] "q" = some Y from rfl]
    simp
  have e3 : formula_match [("p", X), ("q", Y)]
      (Formula.bin "->" (Formula.var "p") (Formula.var "q")) (Formula.bin "->" X Y)
      = some [("p", X), ("q", Y)] := by
    rw [formula_match, if_pos rfl, i1]
    exact i2
  have hsm : MP.specialization_map (InferenceRule.mk [X, Formula.bin "->" X Y] Y)
      = some [("p", X), ("q", Y)] := by
    rw [InferenceRule.specialization_map, if_pos (by simp [MP])]
    show match_pairs [] ((Formula.var "q", Y) :: (Formula.var "p", X)
        :: (Formula.bin "->" (Formula.var "p") (Formula.var "q"), Formula.bin "->" X Y)
        :: []) = _
    rw [match_pairs, show formula_match [] (Formula.var "q") Y = some [("q", Y)] from rfl]
    show match_pairs [("q", Y)] _ = _
    rw [match_pairs,
      show formula_match [("q", Y)] (Formula.var "p") X = some [("p", X), ("q", Y)] from rfl]
    show match_pairs [("p", X), ("q", Y)] _ = _
    rw [match_pairs, e3]
    rfl
  rw [InferenceRule.is_specialization_of, hsm]
  rfl

/-- Every rule of the shape `⊢ (~A -> (A -> C))` is a specialization of I2. -/
theorem i2_rule_spec (A C : Formula) :
    (InferenceRule.mk []
      (Formula.bin "->" (Formula.un "~" A) (Formula.bin "->" A C))
    ).is_specialization_of I2 = true := by
  have j1 : formula_match [] (Formula.un "~" (Formula.var "p")) (Formula.un "~" A)
      = some [("p", A)] := by
    rw [formula_match, if_pos rfl]
    rfl
  have j2 : formula_match [("p", A)] (Formula.var "p") A = some [("p", A)] := by
    rw [formula_match, show sm_get [("p", A)] "p" = some A from rfl]
    simp
  have j3 : formula_match [("p", A)] (Formula.var "q") C = some [("q", C), ("p", A)] := rfl
  have j4 : formula_match [("p", A)]
      (Formula.bin "->" (Formula.var "p") (Formula.var "q")) (Formula.bin "->" A C)
      = some [("q", C), ("p", A)] := by
    rw [formula_match, if_pos rfl, j2]
    exact j3
  have e : formula_match []
      (Formula.bin "->" (Formula.un "~" (Formula.var "p"))
        (Formula.bin "->" (Formula.var "p") (Formula.var "q")))
      (Formula.bin "->" (Formula.un "~" A) (Formula.bin "->" A C))
      = some [("q", C), ("p", A)] := by
    rw [formula_match, if_pos rfl, j1]
    exact j4
  have hsm : I2.specialization_map (InferenceRule.mk []
        (Formula.bin "->" (Formula.un "~" A) (Formula.bin "->" A C)))
      = some [("q", C), ("p", A)] := by
    rw [InferenceRule.specialization_map, if_pos (by simp [I2])]
    show match_pairs []
      ((Formula.bin "->" (Formula.un "~" (Formula.var "p"))
          (Formula.bin "->" (Formula.var "p") (Formula.var "q")),
        Formula.bin "->" (Formula.un "~" A) (Formula.bin "->" A C)) :: []) = _
    rw [match_pairs, e]
    rfl
  rw [InferenceRule.is_specialization_of, hsm]
  rfl

/- Transfer lemmas for line validity under splicing. -/

/-- Local validity of a line only depends on the prefix of the line list up to
that line, so appending lines on the right preserves it. -/
theorem line_ok_append (asms : List Formula) (rules : Finset InferenceRule)
    (L M : List Line) (i : Nat) (h : i < L.length) :
    line_ok asms rules (L ++ M) i = line_ok asms rules L i := by
  have hg : (L ++ M).getD i default = L.getD i default := getD_append_of_lt default L M i h
  rw [line_ok, line_ok, hg]
  cases hr : (L.getD i default).rule with
  | none => rfl
  | some r =>
    cases hall : (L.getD i default).assumptions.all fun j => decide (j < i) with
    | false => simp [hall]
    | true =>
      have hmap : ((L.getD i default).assumptions.map fun j => ((L ++ M).getD j default).formula)
          = (L.getD i default).assumptions.map fun j => (L.getD j default).formula := by
        apply List.map_congr_left
        intro j hj
        have hji : j < i := by
          have := List.all_eq_true.mp hall j hj
          exact of_decide_eq_true this
        rw [getD_append_of_lt default L M j (lt_trans hji h)]
      rw [hmap]

/-- Local validity is monotone in the permitted rule set. -/
theorem line_ok_mono (asms : List Formula) {rules rules2 : Finset InferenceRule}
    (hsub : rules ⊆ rules2) (lines : List Line) (i : Nat)
    (h : line_ok asms rules lines i = true) : line_ok asms rules2 lines i = true := by
  rw [line_ok] at h ⊢
  cases hr : (lines.getD i default).rule with
  | none => rw [hr] at h; exact h
  | some r =>
    rw [hr] at h
    simp only [Bool.and_eq_true, decide_eq_true_eq] at h ⊢
    exact ⟨⟨hsub h.1.1, h.1.2⟩, h.2⟩

/-- A line that is locally valid inside `L2` stays locally valid when `L2` is
spliced after `L` with all references shifted by the length of `L`. -/
theorem line_ok_shift (asms : List Formula) (rules : Finset InferenceRule)
    (L L2 : List Line) (n j : Nat) (hn : L.length = n) (hj : j < L2.length)
    (h : line_ok asms rules L2 j = true) :
    line_ok asms rules (L ++ L2.map (shift_line n)) (n + j) = true := by
  have hg : (L ++ L2.map (shift_line n)).getD (n + j) default
      = shift_line n (L2.getD j default) := by
    rw [getD_append_of_ge default L _ (n + j) (by omega)]
    rw [show n + j - L.length = j by omega]
    exact getD_map_of_lt default default (shift_line n) L2 j hj
  rw [line_ok] at h
  rw [line_ok, hg]
  cases hr : (L2.getD j default).rule with
  | none =>
    rw [hr] at h
    have hshift : shift_line n (L2.getD j default) = L2.getD j default := by
      rw [shift_line, if_pos]
      rw [Line.is_assumption, hr]
      rfl
    rw [hshift, hr]
    exact h
  | some r =>
    rw [hr] at h
    have hshift : shift_line n (L2.getD j default)
        = ⟨(L2.getD j default).formula, (L2.getD j default).rule,
           (L2.getD j default).assumptions.map (· + n)⟩ := by
      rw [shift_line, if_neg]
      rw [Line.is_assumption, hr]
      simp
    rw [hshift]
    simp only [hr]
    simp only [Bool.and_eq_true, decide_eq_true_eq] at h ⊢
    obtain ⟨⟨hmem, hlt⟩, hspec⟩ := h
    simp only [List.all_eq_true, decide_eq_true_eq] at hlt
    refine ⟨⟨hmem, ?_⟩, ?_⟩
    · simp only [List.all_map, List.all_eq_true, Function.comp_apply, decide_eq_true_eq]
      intro k hk
      have := hlt k hk
      omega
    · have hmap : (((L2.getD j default).assumptions.map (· + n)).map
          fun k => ((L ++ L2.map (shift_line n)).getD k default).formula)
          = (L2.getD j default).assumptions.map
            fun k => ((L2.getD k default)).formula := by
        rw [List.map_map]
        apply List.map_congr_left
        intro k hk
        have hki : k < j := hlt k hk
        simp only [Function.comp]
        rw [getD_append_of_ge default L _ (k + n) (by omega)]
        rw [show k + n - L.length = k by omega]
        rw [getD_map_of_lt default default (shift_line n) L2 k (by omega)]
        rw [shift_line]
        cases hka : (L2.getD k default).is_assumption with
        | true => rw [if_pos rfl]
        | false => rw [if_neg (by simp [hka])]
      rw [hmap]
      exact hspec

/- Extraction lemmas for `Proof.is_valid`. -/

/-- A valid proof has a non-empty line list. -/
theorem valid_lines_pos {p : Proof} (h : p.is_valid = true) : 0 < p.lines.length := by
  rw [Proof.is_valid] at h
  simp only [Bool.and_eq_true, decide_eq_true_eq] at h
  have := h.1.1
  cases hl : p.lines with
  | nil => exact absurd hl this
  | cons a l => simp [hl]

/-- The last line of a valid proof carries the statement's conclusion. -/
theorem valid_last {p : Proof} (h : p.is_valid = true) :
    (p.lines.getD (p.lines.length - 1) default).formula = p.statement.conclusion := by
  rw [Proof.is_valid] at h
  simp only [Bool.and_eq_true, decide_eq_true_eq] at h
  exact h.1.2

/-- Every line of a valid proof is locally valid. -/
theorem valid_line_ok {p : Proof} (h : p.is_valid = true) (i : Nat)
    (hi : i < p.lines.length) :
    line_ok p.statement.assumptions p.rules p.lines i = true := by
  rw [Proof.is_valid] at h
  simp only [Bool.and_eq_true, List.all_eq_true, List.mem_range] at h
  exact h.2 i hi

/-- Shifting references does not change a line's formula. -/
theorem shift_line_formula (n : Nat) (l : Line) : (shift_line n l).formula = l.formula := by
  rw [shift_line]
  split <;> rfl

/-- Unfolding `prove_from_opposites` under its preconditions: the guards pass
and the output has the explicit spliced line list. -/
theorem prove_from_opposites_ok (pa pn : Proof) (c : Formula)
    (hva : pa.is_valid = true) (hvn : pn.is_valid = true)
    (hA : pa.statement.assumptions = pn.statement.assumptions)
    (hneg : Formula.un "~" pa.statement.conclusion = pn.statement.conclusion)
    (hR : pa.rules = pn.rules) :
    prove_from_opposites pa pn c = Except.ok
      ⟨⟨pa.statement.assumptions, c⟩, pa.rules ∪ {MP, I2},
       pa.lines ++ pn.lines.map (shift_line pa.lines.length) ++
       [⟨Formula.bin "->" (Formula.un "~" pa.statement.conclusion)
           (Formula.bin "->" pa.statement.conclusion c), some I2, []⟩,
        ⟨Formula.bin "->" pa.statement.conclusion c, some MP,
          [pa.lines.length + pn.lines.length - 1, pa.lines.length + pn.lines.length]⟩,
        ⟨c, some MP,
          [pa.lines.length - 1, pa.lines.length + pn.lines.length + 1]⟩]⟩ := by
  have hn1 : 0 < pa.lines.length := valid_lines_pos hva
  rw [prove_from_opposites]
  rw [if_pos hva, if_pos hvn, if_pos hA, if_pos hneg, if_pos hR]
  simp only []
  rw [show pa.lines.length - 1 + 1 = pa.lines.length from by omega]
  simp only [List.length_append, List.length_map, List.length_cons, List.length_nil,
    List.append_assoc, List.cons_append, List.nil_append, Nat.zero_add, Nat.add_zero]
  rw [show pa.lines.length + (pn.lines.length + 1) - 1
      = pa.lines.length + pn.lines.length from by omega]
  rw [show pa.lines.length + (pn.lines.length + 2) - 1
      = pa.lines.length + pn.lines.length + 1 from by omega]

/-- The spliced proof produced by `prove_from_opposites` is valid: given
locally valid line lists for the affirmation (ending in `A`) and the negation
(ending in `~A`), the copied lines, shifted lines, specialized I2 line and two
Modus Ponens lines are all locally valid and end in the requested conclusion. -/
theorem opposites_result_valid (asms : List Formula) (Ra : Finset InferenceRule)
    (La Ln : List Line) (A c : Formula)
    (hLa : 0 < La.length) (hLn : 0 < Ln.length)
    (haok : ∀ i, i < La.length → line_ok asms Ra La i = true)
    (hnok : ∀ i, i < Ln.length → line_ok asms Ra Ln i = true)
    (hlastA : (La.getD (La.length - 1) default).formula = A)
    (hlastN : (Ln.getD (Ln.length - 1) default).formula = Formula.un "~" A) :
    (Proof.mk ⟨asms, c⟩ (Ra ∪ {MP, I2})
      (La ++ Ln.map (shift_line La.length) ++
       [Line.mk (Formula.bin "->" (Formula.un "~" A) (Formula.bin "->" A c)) (some I2) [],
        Line.mk (Formula.bin "->" A c) (some MP)
          [La.length + Ln.length - 1, La.length + Ln.length],
        Line.mk c (some MP) [La.length - 1, La.length + Ln.length + 1]])).is_valid = true := by
  have hLS : (La ++ Ln.map (shift_line La.length)).length = La.length + Ln.length := by
    simp
  have hT0 : ((La ++ Ln.map (shift_line La.length) ++
       [Line.mk (Formula.bin "->" (Formula.un "~" A) (Formula.bin "->" A c)) (some I2) [],
        Line.mk (Formula.bin "->" A c) (some MP)
          [La.length + Ln.length - 1, La.length + Ln.length],
        Line.mk c (some MP) [La.length - 1, La.length + Ln.length + 1]]) : List Line).getD (La.length + Ln.length) default
      = Line.mk (Formula.bin "->" (Formula.un "~" A) (Formula.bin "->" A c)) (some I2) [] := by
    rw [getD_append_of_ge default _ _ _ hLS.le, hLS, Nat.sub_self]
    rfl
  have hT1 : ((La ++ Ln.map (shift_line La.length) ++
       [Line.mk (Formula.bin "->" (Formula.un "~" A) (Formula.bin "->" A c)) (some I2) [],
        Line.mk (Formula.bin "->" A c) (some MP)
          [La.length + Ln.length - 1, La.length + Ln.length],
        Line.mk c (some MP) [La.length - 1, La.length + Ln.length + 1]]) : List Line).getD (La.length + Ln.length + 1) default
      = Line.mk (Formula.bin "->" A c) (some MP)
        [La.length + Ln.length - 1, La.length + Ln.length] := by
    rw [getD_append_of_ge default _ _ _ (by rw [hLS]; omega), hLS,
      show La.length + Ln.length + 1 - (La.length + Ln.length) = 1 from by omega]
    rfl
  have hT2 : ((La ++ Ln.map (shift_line La.length) ++
       [Line.mk (Formula.bin "->" (Formula.un "~" A) (Formula.bin "->" A c)) (some I2) [],
        Line.mk (Formula.bin "->" A c) (some MP)
          [La.length + Ln.length - 1, La.length + Ln.length],
        Line.mk c (some MP) [La.length - 1, La.length + Ln.length + 1]]) : List Line).getD (La.length + Ln.length + 2) default
      = Line.mk c (some MP) [La.length - 1, La.length + Ln.length + 1] := by
    rw [getD_append_of_ge default _ _ _ (by rw [hLS]; omega), hLS,
      show La.length + Ln.length + 2 - (La.length + Ln.length) = 2 from by omega]
    rfl
  have hf1 : (((La ++ Ln.map (shift_line La.length) ++
       [Line.mk (Formula.bin "->" (Formula.un "~" A) (Formula.bin "->" A c)) (some I2) [],
        Line.mk (Formula.bin "->" A c) (some MP)
          [La.length + Ln.length - 1, La.length + Ln.length],
        Line.mk c (some MP) [La.length - 1, La.length + Ln.length + 1]]) : List Line).getD (La.length - 1) default).formula = A := by
    rw [getD_append_of_lt default _ _ _ (by rw [hLS]; omega),
        getD_append_of_lt default _ _ _ (by omega)]
    exact hlastA
  have hfn : (((La ++ Ln.map (shift_line La.length) ++
       [Line.mk (Formula.bin "->" (Formula.un "~" A) (Formula.bin "->" A c)) (some I2) [],
        Line.mk (Formula.bin "->" A c) (some MP)
          [La.length + Ln.length - 1, La.length + Ln.length],
        Line.mk c (some MP) [La.length - 1, La.length + Ln.length + 1]]) : List Line).getD (La.length + Ln.length - 1) default).formula
      = Formula.un "~" A := by
    rw [getD_append_of_lt default _ _ _ (by rw [hLS]; omega)]
    rw [getD_append_of_ge default _ _ _ (by omega)]
    rw [show La.length + Ln.length - 1 - La.length = Ln.length - 1 from by omega]
    rw [getD_map_of_lt default default _ _ _ (by omega)]
    rw [shift_line_formula]
    exact hlastN
  rw [Proof.is_valid]
  simp only [Bool.and_eq_true, decide_eq_true_eq]
  refine ⟨⟨by simp, ?_⟩, ?_⟩
  · -- last line carries the conclusion
    simp only [List.length_append, List.length_map, List.length_cons, List.length_nil]
    rw [show La.length + Ln.length + (0 + 1 + 1 + 1) - 1 = La.length + Ln.length + 2 from by
      omega]
    rw [hT2]
  · -- every line is locally valid
    simp only [List.all_eq_true, List.mem_range]
    intro i hi
    simp only [List.length_append, List.length_map, List.length_cons, List.length_nil] at hi
    by_cases h1 : i < La.length
    · rw [line_ok_append _ _ _ _ _ (by rw [hLS]; omega),
          line_ok_append _ _ _ _ _ h1]
      exact line_ok_mono asms Finset.subset_union_left La i (haok i h1)
    · by_cases h2 : i < La.length + Ln.length
      · rw [line_ok_append _ _ _ _ _ (by rw [hLS]; omega)]
        have hj : i - La.length < Ln.length := by omega
        have hstep := line_ok_shift asms (Ra ∪ {MP, I2}) La Ln La.length
          (i - La.length) rfl hj
          (line_ok_mono asms Finset.subset_union_left Ln _ (hnok _ hj))
        rw [show La.length + (i - La.length) = i from by omega] at hstep
        exact hstep
      · have hi3 : i = La.length + Ln.length ∨ i = La.length + Ln.length + 1
            ∨ i = La.length + Ln.length + 2 := by omega
        rcases hi3 with hieq | hieq | hieq
        · -- the specialized I2 line
          subst hieq
          rw [line_ok, hT0]
          simp only [Bool.and_eq_true, decide_eq_true_eq, List.all_nil, List.map_nil,
            Bool.true_and, Bool.and_true]
          refine ⟨by simp, ?_⟩
          exact i2_rule_spec A c
        · -- Modus Ponens from `~A` and the I2 line
          subst hieq
          rw [line_ok, hT1]
          simp only [Bool.and_eq_true, decide_eq_true_eq, List.all_cons, List.all_nil,
            List.map_cons, List.map_nil, Bool.true_and, Bool.and_true]
          refine ⟨⟨by simp, by omega, by omega⟩, ?_⟩
          rw [hfn, hT0]
          exact mp_rule_spec (Formula.un "~" A) (Formula.bin "->" A c)
        · -- Modus Ponens from `A` and the `(A->c)` line
          subst hieq
          rw [line_ok, hT2]
          simp only [Bool.and_eq_true, decide_eq_true_eq, List.all_cons, List.all_nil,
            List.map_cons, List.map_nil, Bool.true_and, Bool.and_true]
          refine ⟨⟨by simp, by omega, by omega⟩, ?_⟩
          rw [hf1, hT1]
          exact mp_rule_spec A c

/-- Unfolding `prove_corollary` under its preconditions, with the appended
specialized line's formula identified as `(A->C)` via matcher soundness. -/
theorem prove_corollary_ok (ap : Proof) (c : Formula) (r : InferenceRule) (σ : SMap)
    (hv : ap.is_valid = true)
    (hσ : r.specialization_map
        ⟨[], Formula.bin "->" ap.statement.conclusion c⟩ = some σ) :
    prove_corollary ap c r = Except.ok
      ⟨⟨ap.statement.assumptions, c⟩, ap.rules ∪ {MP, r},
       ap.lines ++
       [Line.mk (Formula.bin "->" ap.statement.conclusion c) (some (r.specialize σ)) [],
        Line.mk c (some MP) [ap.lines.length - 1, ap.lines.length]]⟩ := by
  have hs : (InferenceRule.mk []
      (Formula.bin "->" ap.statement.conclusion c)).is_specialization_of r = true := by
    rw [InferenceRule.is_specialization_of, hσ]
    rfl
  rw [prove_corollary, if_pos hv, if_pos hs]
  simp only []
  rw [hσ]
  simp only [Option.getD_some]
  have hcon : (r.specialize σ).conclusion
      = Formula.bin "->" ap.statement.conclusion c := by
    rw [specialization_map_sound r _ σ hσ]
  rw [hcon]
  rw [show ap.lines.length - 1 + 1 = ap.lines.length from by
    have := valid_lines_pos hv; omega]

/-- Unfolding `combine_proofs` under its preconditions, with the appended
specialized line's formula identified as `(A->(B->C))` via matcher soundness. -/
theorem combine_proofs_ok (p1 p2 : Proof) (c : Formula) (r : InferenceRule) (σ : SMap)
    (h1 : p1.is_valid = true) (h2 : p2.is_valid = true)
    (hA : p1.statement.assumptions = p2.statement.assumptions)
    (hR : p1.rules = p2.rules)
    (hσ : r.specialization_map
        ⟨[], Formula.bin "->" p1.statement.conclusion
              (Formula.bin "->" p2.statement.conclusion c)⟩ = some σ) :
    combine_proofs p1 p2 c r = Except.ok
      ⟨⟨p1.statement.assumptions, c⟩, p1.rules ∪ {MP, r},
       p1.lines ++ p2.lines.map (shift_line p1.lines.length) ++
       [Line.mk (Formula.bin "->" p1.statement.conclusion
           (Formula.bin "->" p2.statement.conclusion c)) (some (r.specialize σ)) [],
        Line.mk (Formula.bin "->" p2.statement.conclusion c) (some MP)
          [p1.lines.length - 1, p1.lines.length + p2.lines.length],
        Line.mk c (some MP)
          [p1.lines.length + p2.lines.length - 1,
           p1.lines.length + p2.lines.length + 1]]⟩ := by
  have hs : (InferenceRule.mk []
      (Formula.bin "->" p1.statement.conclusion
        (Formula.bin "->" p2.statement.conclusion c))).is_specialization_of r = true := by
    rw [InferenceRule.is_specialization_of, hσ]
    rfl
  rw [combine_proofs, if_pos h1, if_pos h2, if_pos hA, if_pos hR, if_pos hs]
  simp only []
  rw [hσ]
  simp only [Option.getD_some]
  have hcon : (r.specialize σ).conclusion
      = Formula.bin "->" p1.statement.conclusion
          (Formula.bin "->" p2.statement.conclusion c) := by
    rw [specialization_map_sound r _ σ hσ]
  rw [hcon]

/-- Indexing into the appended tail of a spliced line list. -/
theorem getD_tail_at (L M : List Line) (i k : Nat) (h : i = L.length + k) :
    (L ++ M).getD i default = M.getD k default := by
  subst h
  rw [getD_append_of_ge default _ _ _ (by omega)]
  congr 1
  omega

/-- Claim C1: `remove_assumption` is specified to return a valid proof, but on
the spec's own concrete scenario (assumptions `["q", "p"]`, two assumption
lines `p`, conclusion `p`) the code returns a proof whose line list is empty —
the computed `new_lines` is discarded — so the result fails `is_valid` even
though its statement (assumptions `["q"]`, conclusion `"(p->p)"`) and rule set
are as promised. -/
theorem C1_remove_assumption_empty_lines :
    c1_proof.is_valid = true ∧
    c1_proof.statement.assumptions = [fq, fp] ∧
    c1_proof.rules = ∅ ∧
    remove_assumption c1_proof = Except.ok
      (Proof.mk ⟨[fq], Formula.bin "->" fp fp⟩ ({MP, I0, I1, D} : Finset InferenceRule) []) ∧
    (Proof.mk ⟨[fq], Formula.bin "->" fp fp⟩
      ({MP, I0, I1, D} : Finset InferenceRule) []).is_valid = false := by decide

/-- Claim C2: `prove_by_way_of_contradiction` is specified to return a valid
proof of `φ`, but the code's return statement references the never-assigned
local name `rules`, so every call satisfying the preconditions raises
`NameError` and no proof is produced; shown here on a one-line proof of
`~(p->p)` from the single assumption `~(p->p)`. -/
theorem C2_pbc_name_error :
    c2_proof.is_valid = true ∧
    c2_proof.statement.conclusion = contradiction_formula ∧
    c2_proof.statement.assumptions = [contradiction_formula] ∧
    (c2_proof.statement.assumptions.getLastD default).root = "~" ∧
    c2_proof.rules = ∅ ∧
    prove_by_way_of_contradiction c2_proof
      = Except.error "NameError: name rules is not defined" := by decide

/-- Claim C3: the code's `prove_by_way_of_contradiction` does not return the
two-step `remove_assumption` + `prove_corollary`-with-N composition — it
crashes with a `NameError`, and on this code the composition itself also fails
(because `remove_assumption` returns an invalid empty-lines proof, tripping
`prove_corollary`'s validity precondition). -/
theorem C3_pbc_not_composition :
    (prove_by_way_of_contradiction c2_proof).toOption = none ∧
    prove_by_way_of_contradiction_spec c2_proof
      = Except.error "antecedent proof is not valid" ∧
    prove_by_way_of_contradiction c2_proof
      ≠ prove_by_way_of_contradiction_spec c2_proof := by decide

/-- Claim C4: `prove_corollary` is specified to return a valid proof, but the
appended specialized line carries the *specialized* rule as its justification
rather than the supplied `conditional`; whenever the specialization map is not
the identity (here `(p->p)` specialized to `(q->q)`), that rule is not in the
output's permitted rule set and the output fails `is_valid`, although its
statement and rule set are as promised. -/
theorem C4_prove_corollary_invalid_output :
    c4_proof.is_valid = true ∧
    (InferenceRule.mk [] (Formula.bin "->" c4_proof.statement.conclusion fq)
      ).is_specialization_of c4_cond = true ∧
    (prove_corollary c4_proof fq c4_cond).map
        (fun q => (q.is_valid, q.statement.assumptions, q.statement.conclusion,
          decide (q.rules = c4_proof.rules ∪ {MP, c4_cond})))
      = Except.ok (false, [fq], fq, true) := by decide

/-- Claim C5: `combine_proofs` has the promised statement, rule set and line
count (`len(P1.lines) + len(P2.lines) + 3 = 5` here), but the specialized
double-conditional line again carries the specialized rule itself, so for a
non-identity specialization (`(x->(y->z))` to `(p->(q->r))`) the output fails
`is_valid`. -/
theorem C5_combine_proofs_invalid_output :
    c5_p1.is_valid = true ∧ c5_p2.is_valid = true ∧
    c5_p1.statement.assumptions = c5_p2.statement.assumptions ∧
    c5_p1.rules = c5_p2.rules ∧
    (InferenceRule.mk [] (Formula.bin "->" c5_p1.statement.conclusion
        (Formula.bin "->" c5_p2.statement.conclusion fr))
      ).is_specialization_of c5_dc = true ∧
    (combine_proofs c5_p1 c5_p2 fr c5_dc).map
        (fun q => (q.is_valid, q.lines.length, q.statement.assumptions,
          q.statement.conclusion))
      = Except.ok (false, 5, [fp, fq], fr) := by decide

/-- Claim C6 (counterexample): the claimed Modus Ponens reference pairing is
refuted — on one-line proofs of `p` and `q`, the `(B->C)`-deriving line has
references `[0, 2]` (last line of proof 1 and the specialized line), not the
claimed `[1, 2]` (last line of shifted proof 2 and the specialized line), and
the final line has references `[1, 3]`, not the claimed `[0, 3]`. -/
theorem C6_mp_references_counterexample :
    c5_p1.is_valid = true ∧ c5_p2.is_valid = true ∧
    c5_p1.statement.assumptions = c5_p2.statement.assumptions ∧
    c5_p1.rules = c5_p2.rules ∧
    (InferenceRule.mk [] (Formula.bin "->" c5_p1.statement.conclusion
        (Formula.bin "->" c5_p2.statement.conclusion fr))
      ).is_specialization_of c5_dc = true ∧
    (combine_proofs c5_p1 c5_p2 fr c5_dc).map
        (fun q => (q.lines.getD 3 default).assumptions) = Except.ok [0, 2] ∧
    (combine_proofs c5_p1 c5_p2 fr c5_dc).map
        (fun q => (q.lines.getD 4 default).assumptions) = Except.ok [1, 3] ∧
    (combine_proofs c5_p1 c5_p2 fr c5_dc).map
        (fun q => (q.lines.getD 3 default).assumptions) ≠ Except.ok [1, 2] ∧
    (combine_proofs c5_p1 c5_p2 fr c5_dc).map
        (fun q => (q.lines.getD 4 default).assumptions) ≠ Except.ok [0, 3] := by decide

/-- Claim C6 (amended): the output of `combine_proofs` is exactly proof 1's
lines verbatim, proof 2's lines with references shifted by `len(proof1.lines)`
(assumption lines unchanged, as built into `shift_line`), the specialized
double-conditional line with no references, a Modus Ponens line deriving
`(B->C)` whose references are the last line of proof 1 (proving A) and the
specialized line, and a final Modus Ponens line deriving `C` whose references
are the last line of shifted proof 2 (proving B) and the `(B->C)` line. -/
theorem C6_combine_structure (p1 p2 : Proof) (c : Formula) (r : InferenceRule)
    (h1 : p1.is_valid = true) (h2 : p2.is_valid = true)
    (hA : p1.statement.assumptions = p2.statement.assumptions)
    (hR : p1.rules = p2.rules)
    (hs : (InferenceRule.mk [] (Formula.bin "->" p1.statement.conclusion
        (Formula.bin "->" p2.statement.conclusion c))
      ).is_specialization_of r = true) :
    ∃ q σ, combine_proofs p1 p2 c r = Except.ok q ∧
      r.specialization_map ⟨[], Formula.bin "->" p1.statement.conclusion
        (Formula.bin "->" p2.statement.conclusion c)⟩ = some σ ∧
      q.lines = p1.lines ++ p2.lines.map (shift_line p1.lines.length) ++
        [Line.mk (Formula.bin "->" p1.statement.conclusion
            (Formula.bin "->" p2.statement.conclusion c)) (some (r.specialize σ)) [],
         Line.mk (Formula.bin "->" p2.statement.conclusion c) (some MP)
           [p1.lines.length - 1, p1.lines.length + p2.lines.length],
         Line.mk c (some MP)
           [p1.lines.length + p2.lines.length - 1,
            p1.lines.length + p2.lines.length + 1]] ∧
      (q.lines.getD (p1.lines.length - 1) default).formula = p1.statement.conclusion ∧
      (q.lines.getD (p1.lines.length + p2.lines.length - 1) default).formula
        = p2.statement.conclusion := by
  obtain ⟨σ, hσ⟩ := is_specialization_of_exists hs
  have hp1 := valid_lines_pos h1
  have hp2 := valid_lines_pos h2
  refine ⟨_, σ, combine_proofs_ok p1 p2 c r σ h1 h2 hA hR hσ, hσ, rfl, ?_, ?_⟩
  · rw [getD_append_of_lt default _ _ _ (by simp; omega),
        getD_append_of_lt default _ _ _ (by omega)]
    exact valid_last h1
  · rw [getD_append_of_lt default _ _ _ (by simp; omega)]
    rw [getD_append_of_ge default _ _ _ (by omega)]
    rw [show p1.lines.length + p2.lines.length - 1 - p1.lines.length
        = p2.lines.length - 1 from by omega]
    rw [getD_map_of_lt default default _ _ _ (by omega)]
    rw [shift_line_formula]
    exact valid_last h2

/-- Claim C6 (witness): the amended structure at the concrete one-line
proofs. -/
theorem C6_combine_structure_witness :
    c5_p1.is_valid = true ∧ c5_p2.is_valid = true ∧
    (∃ q σ, combine_proofs c5_p1 c5_p2 fr c5_dc = Except.ok q ∧
      c5_dc.specialization_map ⟨[], Formula.bin "->" c5_p1.statement.conclusion
        (Formula.bin "->" c5_p2.statement.conclusion fr)⟩ = some σ ∧
      q.lines = c5_p1.lines ++ c5_p2.lines.map (shift_line c5_p1.lines.length) ++
        [Line.mk (Formula.bin "->" c5_p1.statement.conclusion
            (Formula.bin "->" c5_p2.statement.conclusion fr)) (some (c5_dc.specialize σ)) [],
         Line.mk (Formula.bin "->" c5_p2.statement.conclusion fr) (some MP)
           [c5_p1.lines.length - 1, c5_p1.lines.length + c5_p2.lines.length],
         Line.mk fr (some MP)
           [c5_p1.lines.length + c5_p2.lines.length - 1,
            c5_p1.lines.length + c5_p2.lines.length + 1]] ∧
      (q.lines.getD (c5_p1.lines.length - 1) default).formula
        = c5_p1.statement.conclusion ∧
      (q.lines.getD (c5_p1.lines.length + c5_p2.lines.length - 1) default).formula
        = c5_p2.statement.conclusion) :=
  ⟨by decide, by decide,
   C6_combine_structure c5_p1 c5_p2 fr c5_dc (by decide) (by decide) (by decide)
     (by decide) (by decide)⟩

/-- Claim C7: for every pair of valid proofs of `A` and `~A` sharing
assumptions and rules and every conclusion `C`, `prove_from_opposites` returns
a valid proof whose statement has the shared assumptions and conclusion `C`,
whose rule set is the shared rules together with MP and I2, and whose last
line's formula is `C`. -/
theorem C7_prove_from_opposites_valid (pa pn : Proof) (c : Formula)
    (hva : pa.is_valid = true) (hvn : pn.is_valid = true)
    (hA : pa.statement.assumptions = pn.statement.assumptions)
    (hneg : Formula.un "~" pa.statement.conclusion = pn.statement.conclusion)
    (hR : pa.rules = pn.rules) :
    ∃ q, prove_from_opposites pa pn c = Except.ok q ∧
      q.is_valid = true ∧
      q.statement.assumptions = pa.statement.assumptions ∧
      q.statement.conclusion = c ∧
      q.rules = pa.rules ∪ {MP, I2} ∧
      (q.lines.getD (q.lines.length - 1) default).formula = c := by
  have hvalid := opposites_result_valid pa.statement.assumptions pa.rules
    pa.lines pn.lines pa.statement.conclusion c
    (valid_lines_pos hva) (valid_lines_pos hvn)
    (fun i hi => valid_line_ok hva i hi)
    (fun i hi => by
      have hline := valid_line_ok hvn i hi
      rwa [← hA, ← hR] at hline)
    (valid_last hva)
    ((valid_last hvn).trans hneg.symm)
  exact ⟨_, prove_from_opposites_ok pa pn c hva hvn hA hneg hR, hvalid,
    rfl, rfl, rfl, valid_last hvalid⟩

/-- Claim C7 (witness): ex falso at the concrete proofs of `p` and `~p` with
the unrelated conclusion `q`. -/
theorem C7_prove_from_opposites_valid_witness :
    c7_pa.is_valid = true ∧ c7_pn.is_valid = true ∧
    c7_pa.statement.assumptions = c7_pn.statement.assumptions ∧
    Formula.un "~" c7_pa.statement.conclusion = c7_pn.statement.conclusion ∧
    c7_pa.rules = c7_pn.rules ∧
    (∃ q, prove_from_opposites c7_pa c7_pn fq = Except.ok q ∧
      q.is_valid = true ∧
      q.statement.assumptions = c7_pa.statement.assumptions ∧
      q.statement.conclusion = fq ∧
      q.rules = c7_pa.rules ∪ {MP, I2} ∧
      (q.lines.getD (q.lines.length - 1) default).formula = fq) :=
  ⟨by decide, by decide, by decide, by decide, by decide,
   C7_prove_from_opposites_valid c7_pa c7_pn fq (by decide) (by decide) (by decide)
     (by decide) (by decide)⟩

/-- Claim C8: when the needed implication is not a specialization of the
supplied rule, `prove_corollary` and `combine_proofs` fail immediately with
the specialization error and return no proof object. -/
theorem C8_specialization_failure_errors :
    (∀ (ap : Proof) (c : Formula) (r : InferenceRule),
      ap.is_valid = true →
      (InferenceRule.mk [] (Formula.bin "->" ap.statement.conclusion c)
        ).is_specialization_of r = false →
      prove_corollary ap c r
        = Except.error "conditional is not a specialization of the required pattern") ∧
    (∀ (p1 p2 : Proof) (c : Formula) (r : InferenceRule),
      p1.is_valid = true → p2.is_valid = true →
      p1.statement.assumptions = p2.statement.assumptions →
      p1.rules = p2.rules →
      (InferenceRule.mk [] (Formula.bin "->" p1.statement.conclusion
          (Formula.bin "->" p2.statement.conclusion c))
        ).is_specialization_of r = false →
      combine_proofs p1 p2 c r
        = Except.error "double conditional is not a specialization of the required pattern") := by
  constructor
  · intro ap c r hv hs
    rw [prove_corollary, if_pos hv, if_neg (by simp [hs])]
  · intro p1 p2 c r h1 h2 hA hR hs
    rw [combine_proofs, if_pos h1, if_pos h2, if_pos hA, if_pos hR,
      if_neg (by simp [hs])]

/-- Claim C8 (witness): concrete non-specializing calls fail with the
specialization error. -/
theorem C8_specialization_failure_errors_witness :
    c8_ap.is_valid = true ∧
    (InferenceRule.mk [] (Formula.bin "->" c8_ap.statement.conclusion fq)
      ).is_specialization_of I0 = false ∧
    prove_corollary c8_ap fq I0
      = Except.error "conditional is not a specialization of the required pattern" ∧
    (InferenceRule.mk [] (Formula.bin "->" c5_p1.statement.conclusion
        (Formula.bin "->" c5_p2.statement.conclusion fr))
      ).is_specialization_of I0 = false ∧
    combine_proofs c5_p1 c5_p2 fr I0
      = Except.error "double conditional is not a specialization of the required pattern" :=
  ⟨by decide, by decide,
   C8_specialization_failure_errors.1 c8_ap fq I0 (by decide) (by decide),
   by decide,
   C8_specialization_failure_errors.2 c5_p1 c5_p2 fr I0 (by decide) (by decide)
     (by decide) (by decide) (by decide)⟩

/-- Claim C10: every Modus Ponens line emitted by `prove_corollary`,
`combine_proofs` and `prove_from_opposites` has exactly two references, in
fixed order: the line proving the antecedent first and the line proving the
implication second, matching MP's assumption slot order. -/
theorem C10_mp_reference_order :
    (∀ (ap : Proof) (c : Formula) (r : InferenceRule),
      ap.is_valid = true →
      (InferenceRule.mk [] (Formula.bin "->" ap.statement.conclusion c)
        ).is_specialization_of r = true →
      ∃ q, prove_corollary ap c r = Except.ok q ∧
        q.lines.getD (ap.lines.length + 1) default
          = Line.mk c (some MP) [ap.lines.length - 1, ap.lines.length] ∧
        (q.lines.getD (ap.lines.length - 1) default).formula = ap.statement.conclusion ∧
        (q.lines.getD ap.lines.length default).formula
          = Formula.bin "->" ap.statement.conclusion c) ∧
    (∀ (p1 p2 : Proof) (c : Formula) (r : InferenceRule),
      p1.is_valid = true → p2.is_valid = true →
      p1.statement.assumptions = p2.statement.assumptions →
      p1.rules = p2.rules →
      (InferenceRule.mk [] (Formula.bin "->" p1.statement.conclusion
          (Formula.bin "->" p2.statement.conclusion c))
        ).is_specialization_of r = true →
      ∃ q, combine_proofs p1 p2 c r = Except.ok q ∧
        q.lines.getD (p1.lines.length + p2.lines.length + 1) default
          = Line.mk (Formula.bin "->" p2.statement.conclusion c) (some MP)
              [p1.lines.length - 1, p1.lines.length + p2.lines.length] ∧
        (q.lines.getD (p1.lines.length - 1) default).formula = p1.statement.conclusion ∧
        (q.lines.getD (p1.lines.length + p2.lines.length) default).formula
          = Formula.bin "->" p1.statement.conclusion
              (Formula.bin "->" p2.statement.conclusion c) ∧
        q.lines.getD (p1.lines.length + p2.lines.length + 2) default
          = Line.mk c (some MP)
              [p1.lines.length + p2.lines.length - 1,
               p1.lines.length + p2.lines.length + 1] ∧
        (q.lines.getD (p1.lines.length + p2.lines.length - 1) default).formula
          = p2.statement.conclusion ∧
        (q.lines.getD (p1.lines.length + p2.lines.length + 1) default).formula
          = Formula.bin "->" p2.statement.conclusion c) ∧
    (∀ (pa pn : Proof) (c : Formula),
      pa.is_valid = true → pn.is_valid = true →
      pa.statement.assumptions = pn.statement.assumptions →
      Formula.un "~" pa.statement.conclusion = pn.statement.conclusion →
      pa.rules = pn.rules →
      ∃ q, prove_from_opposites pa pn c = Except.ok q ∧
        q.lines.getD (pa.lines.length + pn.lines.length + 1) default
          = Line.mk (Formula.bin "->" pa.statement.conclusion c) (some MP)
              [pa.lines.length + pn.lines.length - 1,
               pa.lines.length + pn.lines.length] ∧
        (q.lines.getD (pa.lines.length + pn.lines.length - 1) default).formula
          = Formula.un "~" pa.statement.conclusion ∧
        (q.lines.getD (pa.lines.length + pn.lines.length) default).formula
          = Formula.bin "->" (Formula.un "~" pa.statement.conclusion)
              (Formula.bin "->" pa.statement.conclusion c) ∧
        q.lines.getD (pa.lines.length + pn.lines.length + 2) default
          = Line.mk c (some MP)
              [pa.lines.length - 1, pa.lines.length + pn.lines.length + 1] ∧
        (q.lines.getD (pa.lines.length - 1) default).formula
          = pa.statement.conclusion ∧
        (q.lines.getD (pa.lines.length + pn.lines.length + 1) default).formula
          = Formula.bin "->" pa.statement.conclusion c) := by
  refine ⟨?_, ?_, ?_⟩
  · intro ap c r hv hs
    obtain ⟨σ, hσ⟩ := is_specialization_of_exists hs
    have hp := valid_lines_pos hv
    refine ⟨_, prove_corollary_ok ap c r σ hv hσ, ?_, ?_, ?_⟩
    · rw [getD_tail_at _ _ _ 1 rfl]
      rfl
    · rw [getD_append_of_lt default _ _ _ (by omega)]
      exact valid_last hv
    · rw [getD_tail_at ap.lines _ ap.lines.length 0 (by omega)]
      rfl
  · intro p1 p2 c r h1 h2 hA hR hs
    obtain ⟨σ, hσ⟩ := is_specialization_of_exists hs
    have hp1 := valid_lines_pos h1
    have hp2 := valid_lines_pos h2
    refine ⟨_, combine_proofs_ok p1 p2 c r σ h1 h2 hA hR hσ, ?_, ?_, ?_, ?_, ?_, ?_⟩
    · rw [getD_tail_at _ _ _ 1 (by simp)]
      rfl
    · rw [getD_append_of_lt default _ _ _ (by simp; omega),
          getD_append_of_lt default _ _ _ (by omega)]
      exact valid_last h1
    · rw [getD_tail_at _ _ _ 0 (by simp)]
      rfl
    · rw [getD_tail_at _ _ _ 2 (by simp)]
      rfl
    · rw [getD_append_of_lt default _ _ _ (by simp; omega)]
      rw [getD_append_of_ge default _ _ _ (by omega)]
      rw [show p1.lines.length + p2.lines.length - 1 - p1.lines.length
          = p2.lines.length - 1 from by omega]
      rw [getD_map_of_lt default default _ _ _ (by omega)]
      rw [shift_line_formula]
      exact valid_last h2
    · rw [getD_tail_at _ _ _ 1 (by simp)]
      rfl
  · intro pa pn c hva hvn hA hneg hR
    have hp1 := valid_lines_pos hva
    have hp2 := valid_lines_pos hvn
    refine ⟨_, prove_from_opposites_ok pa pn c hva hvn hA hneg hR, ?_, ?_, ?_, ?_, ?_, ?_⟩
    · rw [getD_tail_at _ _ _ 1 (by simp)]
      rfl
    · rw [getD_append_of_lt default _ _ _ (by simp; omega)]
      rw [getD_append_of_ge default _ _ _ (by omega)]
      rw [show pa.lines.length + pn.lines.length - 1 - pa.lines.length
          = pn.lines.length - 1 from by omega]
      rw [getD_map_of_lt default default _ _ _ (by omega)]
      rw [shift_line_formula]
      exact (valid_last hvn).trans hneg.symm
    · rw [getD_tail_at _ _ _ 0 (by simp)]
      rfl
    · rw [getD_tail_at _ _ _ 2 (by simp)]
      rfl
    · rw [getD_append_of_lt default _ _ _ (by simp; omega),
          getD_append_of_lt default _ _ _ (by omega)]
      exact valid_last hva
    · rw [getD_tail_at _ _ _ 1 (by simp)]
      rfl

/-- Claim C10 (witness): the reference order at concrete inputs for all three
maneuvers. -/
theorem C10_mp_reference_order_witness :
    c8_ap.is_valid = true ∧
    (InferenceRule.mk [] (Formula.bin "->" c8_ap.statement.conclusion fq)
      ).is_specialization_of c10_cond = true ∧
    (∃ q, prove_corollary c8_ap fq c10_cond = Except.ok q ∧
      q.lines.getD (c8_ap.lines.length + 1) default
        = Line.mk fq (some MP) [c8_ap.lines.length - 1, c8_ap.lines.length] ∧
      (q.lines.getD (c8_ap.lines.length - 1) default).formula
        = c8_ap.statement.conclusion ∧
      (q.lines.getD c8_ap.lines.length default).formula
        = Formula.bin "->" c8_ap.statement.conclusion fq) ∧
    (∃ q, combine_proofs c5_p1 c5_p2 fr c5_dc = Except.ok q ∧
      q.lines.getD (c5_p1.lines.length + c5_p2.lines.length + 1) default
        = Line.mk (Formula.bin "->" c5_p2.statement.conclusion fr) (some MP)
            [c5_p1.lines.length - 1, c5_p1.lines.length + c5_p2.lines.length] ∧
      (q.lines.getD (c5_p1.lines.length - 1) default).formula
        = c5_p1.statement.conclusion ∧
      (q.lines.getD (c5_p1.lines.length + c5_p2.lines.length) default).formula
        = Formula.bin "->" c5_p1.statement.conclusion
            (Formula.bin "->" c5_p2.statement.conclusion fr) ∧
      q.lines.getD (c5_p1.lines.length + c5_p2.lines.length + 2) default
        = Line.mk fr (some MP)
            [c5_p1.lines.length + c5_p2.lines.length - 1,
             c5_p1.lines.length + c5_p2.lines.length + 1] ∧
      (q.lines.getD (c5_p1.lines.length + c5_p2.lines.length - 1) default).formula
        = c5_p2.statement.conclusion ∧
      (q.lines.getD (c5_p1.lines.length + c5_p2.lines.length + 1) default).formula
        = Formula.bin "->" c5_p2.statement.conclusion fr) ∧
    (∃ q, prove_from_opposites c7_pa c7_pn fq = Except.ok q ∧
      q.lines.getD (c7_pa.lines.length + c7_pn.lines.length + 1) default
        = Line.mk (Formula.bin "->" c7_pa.statement.conclusion fq) (some MP)
            [c7_pa.lines.length + c7_pn.lines.length - 1,
             c7_pa.lines.length + c7_pn.lines.length] ∧
      (q.lines.getD (c7_pa.lines.length + c7_pn.lines.length - 1) default).formula
        = Formula.un "~" c7_pa.statement.conclusion ∧
      (q.lines.getD (c7_pa.lines.length + c7_pn.lines.length) default).formula
        = Formula.bin "->" (Formula.un "~" c7_pa.statement.conclusion)
            (Formula.bin "->" c7_pa.statement.conclusion fq) ∧
      q.lines.getD (c7_pa.lines.length + c7_pn.lines.length + 2) default
        = Line.mk fq (some MP)
            [c7_pa.lines.length - 1, c7_pa.lines.length + c7_pn.lines.length + 1] ∧
      (q.lines.getD (c7_pa.lines.length - 1) default).formula
        = c7_pa.statement.conclusion ∧
      (q.lines.getD (c7_pa.lines.length + c7_pn.lines.length + 1) default).formula
        = Formula.bin "->" c7_pa.statement.conclusion fq) :=
  ⟨by decide, by decide,
   C10_mp_reference_order.1 c8_ap fq c10_cond (by decide) (by decide),
   C10_mp_reference_order.2.1 c5_p1 c5_p2 fr c5_dc (by decide) (by decide) (by decide)
     (by decide) (by decide),
   C10_mp_reference_order.2.2 c7_pa c7_pn fq (by decide) (by decide) (by decide)
     (by decide) (by decide)⟩

/- Frame lemmas for the heap model: appends to a freshly allocated list never
change any previously existing list. -/

/-- One push at index `i` leaves every other index unchanged. -/
theorem pushL_frame (h : Heap) (i j : Nat) (x : Line) (hne : i ≠ j) :
    (pushL h i x).getD j [] = h.getD j [] := by
  rw [pushL]
  exact getD_set_of_ne [] h i j _ hne

/-- Pushing a list of elements at index `i` leaves every other index
unchanged. -/
theorem pushAllL_frame : ∀ (xs : List Line) (h : Heap) (i j : Nat), i ≠ j →
    (pushAllL h i xs).getD j [] = h.getD j []
  | [], _, _, _, _ => rfl
  | x :: xs, h, i, j, hne => by
      rw [pushAllL, pushAllL_frame xs _ i j hne]
      exact pushL_frame h i j x hne

/-- A push preserves the heap's length. -/
theorem pushL_length (h : Heap) (i : Nat) (x : Line) : (pushL h i x).length = h.length := by
  rw [pushL]
  exact List.length_set h i _

/-- Pushing a list preserves the heap's length. -/
theorem pushAllL_length : ∀ (xs : List Line) (h : Heap) (i : Nat),
    (pushAllL h i xs).length = h.length
  | [], _, _ => rfl
  | x :: xs, h, i => by
      rw [pushAllL, pushAllL_length xs _ i]
      exact pushL_length h i x

/-- The per-line loop of the heap-level `remove_assumption` leaves every index
other than the fresh one unchanged. -/
theorem foldl_pushAllL_frame (f : Heap → Line → List Line) (lid j : Nat)
    (hne : lid ≠ j) :
    ∀ (ls : List Line) (h : Heap),
      (ls.foldl (fun hh line => pushAllL hh lid (f hh line)) h).getD j []
        = h.getD j []
  | [], _ => rfl
  | l :: ls, h => by
      rw [List.foldl_cons, foldl_pushAllL_frame f lid j hne ls _]
      exact pushAllL_frame _ _ _ _ hne

/-- The per-line loop preserves the heap's length. -/
theorem foldl_pushAllL_length (f : Heap → Line → List Line) (lid : Nat) :
    ∀ (ls : List Line) (h : Heap),
      (ls.foldl (fun hh line => pushAllL hh lid (f hh line)) h).length = h.length
  | [], _ => rfl
  | l :: ls, h => by
      rw [List.foldl_cons, foldl_pushAllL_length f lid ls _]
      exact pushAllL_length _ _ _

/-- Frame property of the heap-level `prove_corollary`. -/
theorem pcH_frame (ap : ProofH) (c : Formula) (r : InferenceRule) (h : Heap)
    (j : Nat) (hj : j < h.length) :
    (prove_corollaryH ap c r h).2.getD j [] = h.getD j [] := by
  have hne : h.length ≠ j := by omega
  rw [prove_corollaryH]
  simp only [allocL]
  split
  · split
    · simp only []
      rw [pushL_frame _ _ _ _ hne, pushL_frame _ _ _ _ hne,
        pushAllL_frame _ _ _ _ hne]
      exact getD_append_of_lt [] h _ j hj
    · rfl
  · rfl

/-- Frame property of the heap-level `combine_proofs`. -/
theorem cpH_frame (p1 p2 : ProofH) (c : Formula) (r : InferenceRule) (h : Heap)
    (j : Nat) (hj : j < h.length) :
    (combine_proofsH p1 p2 c r h).2.getD j [] = h.getD j [] := by
  have hne : h.length ≠ j := by omega
  rw [combine_proofsH]
  simp only [allocL]
  split
  · split
    · split
      · split
        · split
          · simp only []
            rw [pushL_frame _ _ _ _ hne, pushL_frame _ _ _ _ hne,
              pushL_frame _ _ _ _ hne, pushAllL_frame _ _ _ _ hne,
              pushAllL_frame _ _ _ _ hne]
            exact getD_append_of_lt [] h _ j hj
          · rfl
        · rfl
      · rfl
    · rfl
  · rfl

/-- Frame property of the heap-level `remove_assumption`. -/
theorem raH_frame (pr : ProofH) (h : Heap) (j : Nat) (hj : j < h.length) :
    (remove_assumptionH pr h).2.getD j [] = h.getD j [] := by
  have hne : h.length ≠ j := by omega
  rw [remove_assumptionH]
  simp only [allocL]
  split
  · split
    · split
      · simp only []
        rw [getD_append_of_lt [] _ _ j (by
          rw [foldl_pushAllL_length]
          simp
          omega)]
        rw [foldl_pushAllL_frame _ _ _ hne]
        exact getD_append_of_lt [] h _ j hj
      · rfl
    · rfl
  · rfl

/-- Frame property of the heap-level `prove_from_opposites`. -/
theorem pfoH_frame (pa pn : ProofH) (c : Formula) (h : Heap) (j : Nat)
    (hj : j < h.length) :
    (prove_from_oppositesH pa pn c h).2.getD j [] = h.getD j [] := by
  have hne : h.length ≠ j := by omega
  rw [prove_from_oppositesH]
  simp only [allocL]
  split
  · split
    · split
      · split
        · split
          · simp only []
            rw [pushL_frame _ _ _ _ hne, pushL_frame _ _ _ _ hne,
              pushL_frame _ _ _ _ hne, pushAllL_frame _ _ _ _ hne,
              pushAllL_frame _ _ _ _ hne]
            exact getD_append_of_lt [] h _ j hj
          · rfl
        · rfl
      · rfl
    · rfl
  · rfl

/-- The heap-level `prove_by_way_of_contradiction` leaves the heap untouched. -/
theorem pbcH_heap (pr : ProofH) (h : Heap) :
    (prove_by_way_of_contradictionH pr h).2 = h := by
  rw [prove_by_way_of_contradictionH]
  split
  · split
    · split
      · split
        · split
          · rfl
          · rfl
        · rfl
      · rfl
    · rfl
  · rfl

/-- The heap-level `prove_by_way_of_contradiction` never returns a proof. -/
theorem pbcH_not_ok (pr : ProofH) (h : Heap) (q : ProofH) :
    (prove_by_way_of_contradictionH pr h).1 ≠ Except.ok q := by
  rw [prove_by_way_of_contradictionH]
  split
  · split
    · split
      · split
        · split
          · simp
          · simp
        · simp
      · simp
    · simp
  · simp

/-- On success, the heap-level `prove_corollary` returns a proof whose line
list is the freshly allocated one. -/
theorem pcH_fresh (ap : ProofH) (c : Formula) (r : InferenceRule) (h : Heap)
    (q : ProofH) (hq : (prove_corollaryH ap c r h).1 = Except.ok q) :
    h.length ≤ q.linesRef := by
  rw [prove_corollaryH] at hq
  simp only [allocL] at hq
  split at hq
  · split at hq
    · simp only [Except.ok.injEq] at hq
      subst hq
      exact le_refl _
    · exact absurd hq (by simp)
  · exact absurd hq (by simp)

/-- On success, the heap-level `combine_proofs` returns a proof whose line
list is the freshly allocated one. -/
theorem cpH_fresh (p1 p2 : ProofH) (c : Formula) (r : InferenceRule) (h : Heap)
    (q : ProofH) (hq : (combine_proofsH p1 p2 c r h).1 = Except.ok q) :
    h.length ≤ q.linesRef := by
  rw [combine_proofsH] at hq
  simp only [allocL] at hq
  split at hq
  · split at hq
    · split at hq
      · split at hq
        · split at hq
          · simp only [Except.ok.injEq] at hq
            subst hq
            exact le_refl _
          · exact absurd hq (by simp)
        · exact absurd hq (by simp)
      · exact absurd hq (by simp)
    · exact absurd hq (by simp)
  · exact absurd hq (by simp)

/-- On success, the heap-level `remove_assumption` returns a proof whose line
list is freshly allocated (above every pre-existing index). -/
theorem raH_fresh (pr : ProofH) (h : Heap) (q : ProofH)
    (hq : (remove_assumptionH pr h).1 = Except.ok q) :
    h.length ≤ q.linesRef := by
  rw [remove_assumptionH] at hq
  simp only [allocL] at hq
  split at hq
  · split at hq
    · split at hq
      · simp only [Except.ok.injEq] at hq
        subst hq
        simp only []
        rw [foldl_pushAllL_length]
        simp
      · exact absurd hq (by simp)
    · exact absurd hq (by simp)
  · exact absurd hq (by simp)

/-- On success, the heap-level `prove_from_opposites` returns a proof whose
line list is the freshly allocated one. -/
theorem pfoH_fresh (pa pn : ProofH) (c : Formula) (h : Heap) (q : ProofH)
    (hq : (prove_from_oppositesH pa pn c h).1 = Except.ok q) :
    h.length ≤ q.linesRef := by
  rw [prove_from_oppositesH] at hq
  simp only [allocL] at hq
  split at hq
  · split at hq
    · split at hq
      · split at hq
        · split at hq
          · simp only [Except.ok.injEq] at hq
            subst hq
            exact le_refl _
          · exact absurd hq (by simp)
        · exact absurd hq (by simp)
      · exact absurd hq (by simp)
    · exact absurd hq (by simp)
  · exact absurd hq (by simp)

/-- Claim C9: no maneuver mutates its input proofs — in the heap model of the
Python lists, every list that existed before the call (in particular every
input proof's line sequence, and hence its statement, rule set and lines) is
unchanged after each of the five maneuvers, and a successful result's line
sequence lives at a freshly allocated index, so later reindexing of the output
cannot alter the inputs; `prove_by_way_of_contradiction` leaves the heap
untouched and returns no proof at all. -/
theorem C9_no_input_mutation (h : Heap) (j : Nat) (hj : j < h.length)
    (ap pn p1 p2 pr : ProofH) (c c2 c3 : Formula) (r r2 : InferenceRule) :
    ((prove_corollaryH ap c r h).2.getD j [] = h.getD j [] ∧
      ∀ q, (prove_corollaryH ap c r h).1 = Except.ok q → h.length ≤ q.linesRef) ∧
    ((combine_proofsH p1 p2 c2 r2 h).2.getD j [] = h.getD j [] ∧
      ∀ q, (combine_proofsH p1 p2 c2 r2 h).1 = Except.ok q → h.length ≤ q.linesRef) ∧
    ((remove_assumptionH pr h).2.getD j [] = h.getD j [] ∧
      ∀ q, (remove_assumptionH pr h).1 = Except.ok q → h.length ≤ q.linesRef) ∧
    ((prove_from_oppositesH ap pn c3 h).2.getD j [] = h.getD j [] ∧
      ∀ q, (prove_from_oppositesH ap pn c3 h).1 = Except.ok q → h.length ≤ q.linesRef) ∧
    ((prove_by_way_of_contradictionH pr h).2 = h ∧
      ∀ q, (prove_by_way_of_contradictionH pr h).1 ≠ Except.ok q) :=
  ⟨⟨pcH_frame ap c r h j hj, fun q hq => pcH_fresh ap c r h q hq⟩,
   ⟨cpH_frame p1 p2 c2 r2 h j hj, fun q hq => cpH_fresh p1 p2 c2 r2 h q hq⟩,
   ⟨raH_frame pr h j hj, fun q hq => raH_fresh pr h q hq⟩,
   ⟨pfoH_frame ap pn c3 h j hj, fun q hq => pfoH_fresh ap pn c3 h q hq⟩,
   ⟨pbcH_heap pr h, fun q => pbcH_not_ok pr h q⟩⟩

/-- Claim C9 (witness): the frame property at a concrete heap and inputs. -/
theorem C9_no_input_mutation_witness :
    0 < c9_heap.length ∧
    (((prove_corollaryH c9_ph fp c10_cond c9_heap).2.getD 0 [] = c9_heap.getD 0 [] ∧
      ∀ q, (prove_corollaryH c9_ph fp c10_cond c9_heap).1 = Except.ok q →
        c9_heap.length ≤ q.linesRef) ∧
    ((combine_proofsH c9_ph c9_ph fq c5_dc c9_heap).2.getD 0 [] = c9_heap.getD 0 [] ∧
      ∀ q, (combine_proofsH c9_ph c9_ph fq c5_dc c9_heap).1 = Except.ok q →
        c9_heap.length ≤ q.linesRef) ∧
    ((remove_assumptionH c9_ph c9_heap).2.getD 0 [] = c9_heap.getD 0 [] ∧
      ∀ q, (remove_assumptionH c9_ph c9_heap).1 = Except.ok q →
        c9_heap.length ≤ q.linesRef) ∧
    ((prove_from_oppositesH c9_ph c9_ph fr c9_heap).2.getD 0 [] = c9_heap.getD 0 [] ∧
      ∀ q, (prove_from_oppositesH c9_ph c9_ph fr c9_heap).1 = Except.ok q →
        c9_heap.length ≤ q.linesRef) ∧
    ((prove_by_way_of_contradictionH c9_ph c9_heap).2 = c9_heap ∧
      ∀ q, (prove_by_way_of_contradictionH c9_ph c9_heap).1 ≠ Except.ok q)) :=
  ⟨by decide,
   C9_no_input_mutation c9_heap 0 (by decide) c9_ph c9_ph c9_ph c9_ph c9_ph
     fp fq fr c10_cond c5_dc⟩
